import Mathlib

/-!
# golang-elasticsearch: retry writer, bulk loader and search query assembly

A shallow embedding of `src/products/main.go` (`retryWithBackoff`,
`IndexProductWithRetry`, the loop of `main`) and of `src/api/main.go`
(`SearchHandler`), with the properties of the specification stated over it.

Conventions.
* A Go `error` is an `Option String`: `none` is `nil`, `some msg` is an error
  with message `msg`.
* The remote store is an explicit state `σ`; a call that talks to it is a
  function `σ → result × σ`.
* Observable effects (invocations of the write function, `time.Sleep`, log
  lines, search requests) are recorded in traces.
* `time.Duration` is a signed 64-bit count of nanoseconds: an `Int` reduced
  with `wrapInt64` after every arithmetic step.
-/

namespace Products

/-! ## `src/products/main.go` -/

/-- Two's-complement reduction of an integer to the range of Go's `int64`. -/
def wrapInt64 (x : Int) : Int := (x + 2 ^ 63) % 2 ^ 64 - 2 ^ 63

/-- The constant `time.Millisecond`, in nanoseconds. -/
def Millisecond : Int := 1000000

/-- The argument of `time.Sleep` at loop index `i`:
`time.Duration(1<<uint(i)*100) * time.Millisecond`.  Inside the conversion the
untyped constants take the type `time.Duration` (`int64`); `<<` and `*` have
equal precedence and associate to the left, so the value is
`((1 << i) * 100) * 1000000` with wrap-around at every step. -/
def backoff (i : Nat) : Int :=
  wrapInt64 (wrapInt64 (wrapInt64 (1 * 2 ^ i) * 100) * Millisecond)

/-- What `retryWithBackoff` does that can be observed from outside. -/
inductive Event where
  /-- One invocation of `fn`. -/
  | call : Event
  /-- One `time.Sleep(d)`, `d` in nanoseconds. -/
  | sleep (d : Int) : Event
  deriving DecidableEq, Repr

/-- The `for i := 0; i < maxRetries; i++` loop of `retryWithBackoff`.
`remaining` is `maxRetries - i`, the number of iterations still to run. -/
def retryLoop {σ : Type} (fn : σ → Option String × σ) :
    Nat → Nat → σ → List Event → Option String × σ × List Event
  | 0, _, s, tr => (some "max retries exceeded", s, tr)
  | remaining + 1, i, s, tr =>
    match fn s with
    | (none, s1) => (none, s1, tr ++ [Event.call])
    | (some _, s1) =>
      retryLoop fn remaining (i + 1) s1 (tr ++ [Event.call, Event.sleep (backoff i)])

/-- Embedding of `retryWithBackoff(maxRetries, fn)`: returns the error, the
state of the store afterwards and the trace of invocations and sleeps. -/
def retryWithBackoff {σ : Type} (maxRetries : Int) (fn : σ → Option String × σ)
    (s : σ) : Option String × σ × List Event :=
  retryLoop fn maxRetries.toNat 0 s []

/-- The state of the store after `k` invocations of `fn` from `s`. -/
def stateAfter {σ : Type} (fn : σ → Option String × σ) : Nat → σ → σ
  | 0, s => s
  | k + 1, s => stateAfter fn k (fn s).2

/-- The error returned by invocation number `k` (zero-based) of `fn` when it
is invoked again and again from `s`. -/
def outcome {σ : Type} (fn : σ → Option String × σ) (k : Nat) (s : σ) : Option String :=
  (fn (stateAfter fn k s)).1

/-- The number of invocations of `fn` in a trace. -/
def callCount (tr : List Event) : Nat := tr.count Event.call

/-- The durations of the sleeps of a trace, in order. -/
def sleeps : List Event → List Int
  | [] => []
  | Event.call :: tr => sleeps tr
  | Event.sleep d :: tr => d :: sleeps tr

/-- The trace of `k` failed attempts in a row, the first at loop index `i`. -/
def failRun : Nat → Nat → List Event
  | _, 0 => []
  | i, k + 1 => Event.call :: Event.sleep (backoff i) :: failRun (i + 1) k

/-- A write function that fails on every invocation. -/
def alwaysFails : Unit → Option String × Unit := fun u => (some "connection refused", u)

/-- A write function on a counter that fails on its first two invocations and
succeeds afterwards. -/
def failsTwice : Nat → Option String × Nat :=
  fun n => (if n < 2 then some "connection refused" else none, n + 1)

end Products

namespace Api

/-! ## `src/api/main.go`

`SearchHandler` relies on three library routines: `fmt.Sscanf` with the
format `%f-%f`, `strconv.ParseFloat` behind it, and `fmt.Sprintf` with the
verbs `%s` and `%f`.  They are modelled here after the Go standard library
(`fmt/scan.go`, `strconv/atof.go`, `strconv/ftoa.go`, `fmt/format.go`).
Strings are sequences of Unicode characters. -/

/-! ### `float64` -/

/-- A value of Go's `float64`: not-a-number, an infinity, or the finite
number `(-1)^neg * m * 2^e`.  Several triples may stand for one number; the
zero with `neg = true` is the negative zero. -/
inductive F64 where
  | nan : F64
  | inf (neg : Bool) : F64
  | fin (neg : Bool) (m : Nat) (e : Int) : F64
  deriving DecidableEq, Repr

/-- The exact rational value of a finite `float64` (`none` for NaN and the
infinities). -/
def F64.value : F64 → Option ℚ
  | F64.nan => none
  | F64.inf _ => none
  | F64.fin neg m e => some ((if neg then -1 else 1) * (m : ℚ) * (2 : ℚ) ^ e)

/-- The loop of `bitLen`, with `fuel` iterations at most. -/
def bitLenAux : Nat → Nat → Nat
  | 0, _ => 0
  | fuel + 1, n => if n = 0 then 0 else bitLenAux fuel (n / 2) + 1

/-- The number of binary digits of `n`. -/
def bitLen (n : Nat) : Nat := bitLenAux n n

/-- The fraction `num / den` rounded to the nearest natural number, a tie
going to the even neighbour. -/
def roundHalfEven (num den : Nat) : Nat :=
  let q := num / den
  let r := num % den
  if den < 2 * r ∨ (2 * r = den ∧ q % 2 = 1) then q + 1 else q

/-- IEEE 754 binary64 rounding (nearest, ties to even) of the positive
fraction `num / den` with sign `neg`.  The second component tells whether the
result overflowed to an infinity. -/
def roundToF64 (neg : Bool) (num den : Nat) : F64 × Bool :=
  if num = 0 then (F64.fin neg 0 0, false)
  else
    let d : Int := (bitLen num : Int) - (bitLen den : Int)
    let above : Bool :=
      if 0 ≤ d then decide (den <<< d.toNat ≤ num) else decide (den ≤ num <<< (-d).toNat)
    let E : Int := if above then d else d - 1
    let e : Int := max (E - 52) (-1074)
    let m : Nat :=
      if 0 ≤ e then roundHalfEven num (den <<< e.toNat)
      else roundHalfEven (num <<< (-e).toNat) den
    if (bitLen m : Int) + e > 1024 then (F64.inf neg, true) else (F64.fin neg m e, false)

/-! ### `strconv.ParseFloat` -/

/-- The two failures of `strconv`: `ErrSyntax` and `ErrRange`. -/
inductive NumError where
  | badSyntax : NumError
  | outOfRange : NumError
  deriving DecidableEq, Repr

/-- Whether `c` is one of `0` to `9`. -/
def isDecDigit (c : Char) : Bool := decide ('0' ≤ c ∧ c ≤ '9')

/-- Whether `c` is one of `a` to `f` or `A` to `F`. -/
def isHexLetter (c : Char) : Bool :=
  decide (('a' ≤ c ∧ c ≤ 'f') ∨ ('A' ≤ c ∧ c ≤ 'F'))

/-- The value of a decimal digit, `c - '0'`. -/
def decDigitVal (c : Char) : Nat := c.toNat - '0'.toNat

/-- The value of a hexadecimal letter, `lower(c) - 'a' + 10`. -/
def hexLetterVal (c : Char) : Nat :=
  if 'a' ≤ c then c.toNat - 'a'.toNat + 10 else c.toNat - 'A'.toNat + 10

/-- ASCII upper-case letters mapped to lower case, as in
`commonPrefixLenIgnoreCase`. -/
def asciiLower (c : Char) : Char :=
  if 'A' ≤ c ∧ c ≤ 'Z' then Char.ofNat (c.toNat + 32) else c

/-- The routine `commonPrefixLenIgnoreCase(s, pre)` of `strconv`. -/
def commonPrefixLenIgnoreCase : List Char → List Char → Nat
  | c :: s, p :: pre => if asciiLower c = p then commonPrefixLenIgnoreCase s pre + 1 else 0
  | _, _ => 0

/-- The `case 'i', 'I'` branch of `special`. -/
def specialInf (neg : Bool) (nsign : Nat) (s : List Char) : Option (F64 × Nat) :=
  let n := commonPrefixLenIgnoreCase s "infinity".toList
  let n := if 3 < n ∧ n < 8 then 3 else n
  if n = 3 ∨ n = 8 then some (F64.inf neg, nsign + n) else none

/-- The routine `special` of `strconv`: recognises `inf`, `infinity` (with an
optional sign) and `nan` at the start of `s`, whatever the case of the
letters, and returns the value and the number of characters used. -/
def special : List Char → Option (F64 × Nat)
  | [] => none
  | c :: rest =>
    if c = '+' ∨ c = '-' then specialInf (decide (c = '-')) 1 rest
    else if c = 'i' ∨ c = 'I' then specialInf false 0 (c :: rest)
    else if c = 'n' ∨ c = 'N' then
      if commonPrefixLenIgnoreCase (c :: rest) "nan".toList = 3 then some (F64.nan, 3) else none
    else none

/-- What `readFloat` has gathered in its mantissa loop. -/
structure Mantissa where
  /-- The value of all digits read, as a natural number in the base. -/
  digits : Nat
  /-- The number of digits read after the point. -/
  fracDigits : Nat
  sawdot : Bool
  sawdigits : Bool
  underscores : Bool
  /-- The number of characters consumed. -/
  used : Nat
  deriving DecidableEq, Repr

/-- The mantissa loop of `readFloat`: returns what was gathered and the
characters left. -/
def readMantissa (hex : Bool) : List Char → Mantissa → Mantissa × List Char
  | [], acc => (acc, [])
  | c :: cs, acc =>
    if c = '_' then
      readMantissa hex cs { acc with underscores := true, used := acc.used + 1 }
    else if c = '.' then
      if acc.sawdot then (acc, c :: cs)
      else readMantissa hex cs { acc with sawdot := true, used := acc.used + 1 }
    else if isDecDigit c then
      readMantissa hex cs
        { acc with
          sawdigits := true
          digits := acc.digits * (if hex then 16 else 10) + decDigitVal c
          fracDigits := if acc.sawdot then acc.fracDigits + 1 else acc.fracDigits
          used := acc.used + 1 }
    else if hex && isHexLetter c then
      readMantissa hex cs
        { acc with
          sawdigits := true
          digits := acc.digits * 16 + hexLetterVal c
          fracDigits := if acc.sawdot then acc.fracDigits + 1 else acc.fracDigits
          used := acc.used + 1 }
    else (acc, c :: cs)

/-- The digit loop of the exponent in `readFloat`: the exponent stops growing
once it has reached 10000.  Returns the exponent, whether an underscore was
seen, and the number of characters consumed. -/
def readExpDigits : List Char → Nat → Bool → Nat → Nat × Bool × Nat
  | [], e, us, used => (e, us, used)
  | c :: cs, e, us, used =>
    if c = '_' then readExpDigits cs e true (used + 1)
    else if isDecDigit c then
      readExpDigits cs (if e < 10000 then e * 10 + decDigitVal c else e) us (used + 1)
    else (e, us, used)

/-- The loop `for ; i < len(s); i++` of `underscoreOK`; `saw` is the last
character class seen. -/
def underscoreLoop (hex : Bool) : List Char → Char → Bool
  | [], saw => decide (saw ≠ '_')
  | c :: cs, saw =>
    if isDecDigit c || (hex && isHexLetter c) then underscoreLoop hex cs '0'
    else if c = '_' then
      if saw ≠ '0' then false else underscoreLoop hex cs '_'
    else if saw = '_' then false
    else underscoreLoop hex cs '!'

/-- The routine `underscoreOK` of `strconv`: underscores must separate digits. -/
def underscoreOK (s : List Char) : Bool :=
  let s := match s with
    | c :: cs => if c = '-' ∨ c = '+' then cs else c :: cs
    | [] => []
  match s with
  | '0' :: c :: cs =>
    if c = 'b' ∨ c = 'B' ∨ c = 'o' ∨ c = 'O' ∨ c = 'x' ∨ c = 'X' then
      underscoreLoop (decide (c = 'x' ∨ c = 'X')) cs '0'
    else underscoreLoop false s '^'
  | _ => underscoreLoop false s '^'

/-- The result of `readFloat` when it succeeds: the number read is
`(-1)^neg * digits * base^(-fracDigits) * expBase^exp`, where `base` is 16 and
`expBase` is 2 for a hexadecimal mantissa, and both are 10 otherwise. -/
structure ReadFloat where
  neg : Bool
  hex : Bool
  digits : Nat
  fracDigits : Nat
  exp : Int
  /-- The number of characters consumed. -/
  used : Nat
  deriving DecidableEq, Repr

/-- The routine `readFloat` of `strconv` (`none` when it reports `ok == false`). -/
def readFloat (s : List Char) : Option ReadFloat :=
  match s with
  | [] => none
  | c0 :: _ =>
    let neg := decide (c0 = '-')
    let i0 : Nat := if c0 = '+' ∨ c0 = '-' then 1 else 0
    let s1 := s.drop i0
    let hex : Bool :=
      match s1 with
      | '0' :: x :: _ :: _ => decide (x = 'x' ∨ x = 'X')
      | _ => false
    let i1 := if hex then i0 + 2 else i0
    let s2 := if hex then s1.drop 2 else s1
    let (mant, s3) := readMantissa hex s2
      { digits := 0, fracDigits := 0, sawdot := false, sawdigits := false,
        underscores := false, used := i1 }
    if !mant.sawdigits then none
    else
      let finish (exp : Int) (us : Bool) (used : Nat) : Option ReadFloat :=
        if us && !underscoreOK (s.take used) then none
        else some { neg := neg, hex := hex, digits := mant.digits,
                    fracDigits := mant.fracDigits, exp := exp, used := used }
      let isExpChar (c : Char) : Bool :=
        if hex then decide (c = 'p' ∨ c = 'P') else decide (c = 'e' ∨ c = 'E')
      match s3 with
      | c :: s4 =>
        if isExpChar c then
          match s4 with
          | [] => none
          | c1 :: s5 =>
            let signed := decide (c1 = '+' ∨ c1 = '-')
            let esign : Int := if c1 = '-' then -1 else 1
            let s6 := if signed then s5 else c1 :: s5
            let i6 := mant.used + 1 + (if signed then 1 else 0)
            match s6 with
            | [] => none
            | c2 :: _ =>
              if !isDecDigit c2 then none
              else
                let (e, us, used) := readExpDigits s6 0 mant.underscores i6
                finish (esign * (e : Int)) us used
        else if hex then none
        else finish 0 mant.underscores mant.used
      | [] => if hex then none else finish 0 mant.underscores mant.used

/-- The value read by `readFloat`, rounded to `float64`. -/
def ReadFloat.toF64 (r : ReadFloat) : F64 × Bool :=
  if r.hex then
    let k : Int := r.exp - 4 * (r.fracDigits : Int)
    if 0 ≤ k then roundToF64 r.neg (r.digits <<< k.toNat) 1
    else roundToF64 r.neg r.digits (1 <<< (-k).toNat)
  else
    let k : Int := r.exp - (r.fracDigits : Int)
    if 0 ≤ k then roundToF64 r.neg (r.digits * 10 ^ k.toNat) 1
    else roundToF64 r.neg r.digits (10 ^ (-k).toNat)

/-- The function `strconv.ParseFloat(s, 64)`: the whole of `s` must be a
number, and the nearest `float64` must be finite. -/
def ParseFloat (s : List Char) : Except NumError F64 :=
  match special s with
  | some (f, n) => if n = s.length then Except.ok f else Except.error NumError.badSyntax
  | none =>
    match readFloat s with
    | none => Except.error NumError.badSyntax
    | some r =>
      if r.used ≠ s.length then Except.error NumError.badSyntax
      else
        match r.toF64 with
        | (_, true) => Except.error NumError.outOfRange
        | (f, false) => Except.ok f

/-- The function `strconv.Atoi(s)` on a 64-bit platform: an optional sign and
decimal digits, the value within the range of `int64`. -/
def Atoi (s : List Char) : Except NumError Int :=
  let neg := decide (s.head? = some '-')
  let ds := match s with
    | c :: cs => if c = '+' ∨ c = '-' then cs else c :: cs
    | [] => []
  if ds = [] ∨ !ds.all isDecDigit then Except.error NumError.badSyntax
  else
    let n : Nat := ds.foldl (fun acc c => acc * 10 + decDigitVal c) 0
    if neg then
      if n ≤ 2 ^ 63 then Except.ok (-(n : Int)) else Except.error NumError.outOfRange
    else
      if n < 2 ^ 63 then Except.ok (n : Int) else Except.error NumError.outOfRange

/-- The function `math.Ldexp(frac, exp)`: `frac * 2^exp`, rounded.  The sum of
`exp` and the binary exponent of `frac` is formed in `int` and wraps. -/
def Ldexp (frac : F64) (exp : Int) : F64 :=
  match frac with
  | F64.fin neg m e =>
    if m = 0 then frac
    else
      let E : Int := (bitLen m : Int) - 1 + e
      let x : Int := Products.wrapInt64 (exp + E)
      if x < -1075 then F64.fin neg 0 0
      else if x > 1023 then F64.inf neg
      else
        let k : Int := e + (x - E)
        if 0 ≤ k then (roundToF64 neg (m <<< k.toNat) 1).1
        else (roundToF64 neg m (1 <<< (-k).toNat)).1
  | _ => frac

/-! ### `fmt.Sscanf` with the format `%f-%f` -/

/-- The table `space` of `fmt/scan.go`, through `isSpace`. -/
def isSpace (r : Char) : Bool :=
  let n := r.toNat
  (0x0009 ≤ n && n ≤ 0x000d) || n = 0x0020 || n = 0x0085 || n = 0x00a0 || n = 0x1680 ||
  (0x2000 ≤ n && n ≤ 0x200a) || n = 0x2028 || n = 0x2029 || n = 0x202f || n = 0x205f ||
  n = 0x3000

/-- The method `(*ss).SkipSpace` for `Sscanf`, where a newline in the input
is not a space: leading spaces are dropped, and a newline among them is the
error "unexpected newline". -/
def SkipSpace : List Char → Except String (List Char)
  | [] => Except.ok []
  | r :: rest =>
    if r = '\r' ∧ rest.head? = some '\n' then SkipSpace rest
    else if r = '\n' then Except.error "unexpected newline"
    else if isSpace r then SkipSpace rest
    else Except.ok (r :: rest)

/-- The scan state `ss`: the token buffer `buf` and the input not yet read. -/
structure ss where
  buf : List Char
  input : List Char
  deriving DecidableEq, Repr

/-- The method `(*ss).accept(ok)`: if the next character is in `ok`, it is
moved to the buffer. -/
def ss.accept (s : ss) (ok : List Char) : Bool × ss :=
  match s.input with
  | [] => (false, s)
  | r :: rest => if ok.contains r then (true, { buf := s.buf ++ [r], input := rest }) else (false, s)

/-- The loop `for s.accept(ok) {}`. -/
def acceptAll (ok : List Char) : List Char → List Char → ss
  | buf, [] => { buf := buf, input := [] }
  | buf, r :: rest =>
    if ok.contains r then acceptAll ok (buf ++ [r]) rest else { buf := buf, input := r :: rest }

/-- Three `accept` calls joined by `&&`: a later one runs only when the ones
before it succeeded. -/
def ss.accept3 (s : ss) (a b c : List Char) : Bool × ss :=
  match s.accept a with
  | (false, s1) => (false, s1)
  | (true, s1) =>
    match s1.accept b with
    | (false, s2) => (false, s2)
    | (true, s2) => s2.accept c

/-- The method `(*ss).floatToken`: returns the token and the input left. -/
def floatToken (input : List Char) : List Char × List Char :=
  let s : ss := { buf := [], input := input }
  -- NaN?
  match s.accept3 "nN".toList "aA".toList "nN".toList with
  | (true, s) => (s.buf, s.input)
  | (false, s) =>
    -- leading sign?
    let s := (s.accept "+-".toList).2
    -- Inf?
    match s.accept3 "iI".toList "nN".toList "fF".toList with
    | (true, s) => (s.buf, s.input)
    | (false, s) =>
      let (hex, s) :=
        match s.accept "0".toList with
        | (true, s1) => s1.accept "xX".toList
        | (false, s1) => (false, s1)
      let digits := if hex then "0123456789aAbBcCdDeEfF_".toList else "0123456789_".toList
      let exp := if hex then "pP".toList else "eEpP".toList
      -- digits?
      let s := acceptAll digits s.buf s.input
      -- decimal point?
      let s :=
        match s.accept ".".toList with
        | (true, s1) => acceptAll digits s1.buf s1.input
        | (false, s1) => s1
      -- exponent?
      let s :=
        match s.accept exp with
        | (true, s1) =>
          let s2 := (s1.accept "+-".toList).2
          acceptAll "0123456789_".toList s2.buf s2.input
        | (false, s1) => s1
      (s.buf, s.input)

/-- The method `(*ss).convertFloat(str, 64)`: a token with a lower-case `p`
and no `x` is a decimal mantissa with a binary exponent; every other token
goes to `ParseFloat`. -/
def convertFloat (str : List Char) : Except String F64 :=
  if str.contains 'p' ∧ ¬ (str.contains 'x' ∨ str.contains 'X') then
    let mant := str.takeWhile (fun c => c ≠ 'p')
    let expo := (str.dropWhile (fun c => c ≠ 'p')).drop 1
    match ParseFloat mant with
    | Except.error _ => Except.error "strconv.ParseFloat: parsing failed"
    | Except.ok f =>
      match Atoi expo with
      | Except.error _ => Except.error "strconv.Atoi: parsing failed"
      | Except.ok m => Except.ok (Ldexp f m)
  else
    match ParseFloat str with
    | Except.error _ => Except.error "strconv.ParseFloat: parsing failed"
    | Except.ok f => Except.ok f

/-- One `%f` of the format with a `*float64` operand: `doScanf` skips spaces,
then `scanOne` skips spaces, requires input, reads a token and converts it.
Returns the number and the input left. -/
def scanFloat (input : List Char) : Except String (F64 × List Char) :=
  match SkipSpace input with
  | Except.error err => Except.error err
  | Except.ok input1 =>
    match SkipSpace input1 with
    | Except.error err => Except.error err
    | Except.ok [] => Except.error "unexpected EOF"
    | Except.ok (r :: rest) =>
      let tok := floatToken (r :: rest)
      match convertFloat tok.1 with
      | Except.error err => Except.error err
      | Except.ok f => Except.ok (f, tok.2)

/-- The call `fmt.Sscanf(str, "%f-%f", &minPrice, &maxPrice)`: the error, or
the two numbers stored.  Input left over after the second number is ignored. -/
def Sscanf (str : String) : Except String (F64 × F64) :=
  match scanFloat str.toList with
  | Except.error err => Except.error err
  | Except.ok (minPrice, rest) =>
    match rest with
    | [] => Except.error "unexpected EOF"
    | r :: rest1 =>
      if r ≠ '-' then Except.error "input does not match format"
      else
        match scanFloat rest1 with
        | Except.error err => Except.error err
        | Except.ok (maxPrice, _) => Except.ok (minPrice, maxPrice)

/-! ### `fmt.Sprintf` with the verb `%f` -/

/-- The decimal digit `d` as a character. -/
def digitChar (d : Nat) : Char := Char.ofNat ('0'.toNat + d % 10)

/-- The loop of `natDigits`: the digits of `n` put in front of `acc`. -/
def natDigitsAux : Nat → Nat → List Char → List Char
  | 0, _, acc => acc
  | fuel + 1, n, acc =>
    if n < 10 then digitChar n :: acc else natDigitsAux fuel (n / 10) (digitChar n :: acc)

/-- The decimal digits of `n`, most significant first (`0` for zero). -/
def natDigits (n : Nat) : List Char := natDigitsAux (n + 1) n []

/-- The last `k` decimal digits of `n`, most significant first. -/
def fixedDigits : Nat → Nat → List Char
  | 0, _ => []
  | k + 1, n => fixedDigits k (n / 10) ++ [digitChar n]

/-- The numeral of `K / 10^6` with exactly six digits after the point. -/
def fixed6 (K : Nat) : String :=
  String.mk (natDigits (K / 1000000) ++ '.' :: fixedDigits 6 (K % 1000000))

/-- The magnitude of a finite `float64` in millionths, rounded to the nearest
integer, a tie going to the even neighbour. -/
def millionths (m : Nat) (e : Int) : Nat :=
  if 0 ≤ e then (m <<< e.toNat) * 1000000 else roundHalfEven (m * 1000000) (1 <<< (-e).toNat)

/-- The text that `fmt.Sprintf("%f", x)` produces for a `float64`: six digits
after the point. -/
def formatF : F64 → String
  | F64.nan => "NaN"
  | F64.inf false => "+Inf"
  | F64.inf true => "-Inf"
  | F64.fin neg m e => (if neg then "-" else "") ++ fixed6 (millionths m e)

/-! ### `SearchHandler` -/

/-- The value of `esapi.SearchRequest` built by `SearchHandler`. -/
structure SearchRequest where
  Index : List String
  Body : String
  deriving DecidableEq, Repr

/-- What `req.Do` and the reading of its response give back: an error of the
transport, or a response with `res.IsError()`, `res.Status()` and the outcome
of decoding its body and encoding it again. -/
inductive StoreReply where
  | transportError (err : String) : StoreReply
  | response (isError : Bool) (status : String) (decoded : Except String String) : StoreReply
  deriving Repr

/-- What `SearchHandler` does for one request: the HTTP answer it writes and
the search requests it has sent to the store. -/
structure HandlerResult where
  status : Nat
  contentType : String
  body : String
  requests : List SearchRequest
  deriving DecidableEq, Repr

/-- The call `http.Error(w, msg, code)`. -/
def httpError (msg : String) (code : Nat) (requests : List SearchRequest) : HandlerResult :=
  { status := code, contentType := "text/plain; charset=utf-8", body := msg ++ "\n",
    requests := requests }

/-- The text of `fmt.Sprintf` with the format of the match clause and `query`. -/
def matchClause (query : String) : String :=
  "\x7b\"query\":\x7b\"match\":\x7b\"name\":\"" ++ query ++ "\"\x7d\x7d\x7d"

/-- The text of `fmt.Sprintf` with the format of the term clause and `category`. -/
def termClause (category : String) : String :=
  "\x7b\"filter\":\x7b\"term\":\x7b\"category\":\"" ++ category ++ "\"\x7d\x7d\x7d"

/-- The text of `fmt.Sprintf` with the format of the range clause and the two
prices. -/
def rangeClause (minPrice maxPrice : F64) : String :=
  "\x7b\"filter\":\x7b\"range\":\x7b\"price\":\x7b\"gte\":" ++ formatF minPrice ++
    ",\"lte\":" ++ formatF maxPrice ++ "\x7d\x7d\x7d\x7d"

/-- The text of `fmt.Sprintf` with the format of the boolean container. -/
def boolWrap (queryDSL : String) : String :=
  "\x7b\"bool\":\x7b" ++ queryDSL ++ "\x7d\x7d"

/-- The part "Build the Elasticsearch query" up to "Combine query parts" of
`SearchHandler`: the final value of the variable `queryDSL`, or `none` when
the handler returns early because `Sscanf` failed. -/
def queryDSL (query category priceRange : String) : Option String :=
  let queryDSL := ""
  let queryDSL := if query ≠ "" then queryDSL ++ matchClause query else queryDSL
  let queryDSL :=
    if category ≠ "" then
      let queryDSL := if queryDSL ≠ "" then queryDSL ++ "," else queryDSL
      queryDSL ++ termClause category
    else queryDSL
  let built : Option String :=
    if priceRange ≠ "" then
      match Sscanf priceRange with
      | Except.error _ => none
      | Except.ok (minPrice, maxPrice) =>
        let queryDSL := if queryDSL ≠ "" then queryDSL ++ "," else queryDSL
        some (queryDSL ++ rangeClause minPrice maxPrice)
    else some queryDSL
  match built with
  | none => none
  | some queryDSL => some (if queryDSL ≠ "" then boolWrap queryDSL else queryDSL)

/-- Embedding of the handler returned by `SearchHandler(client)`, applied to
a request with the parameters `query`, `category` and `priceRange`.  The
client is the function `client` from a search request to the store's reply. -/
def SearchHandler (client : SearchRequest → StoreReply)
    (query category priceRange : String) : HandlerResult :=
  match queryDSL query category priceRange with
  | none => httpError "Invalid price range format" 400 []
  | some dsl =>
    let req : SearchRequest := { Index := ["products"], Body := dsl }
    match client req with
    | StoreReply.transportError err =>
      httpError ("Error executing search: " ++ err) 500 [req]
    | StoreReply.response true status _ =>
      httpError ("Error in search response: " ++ status) 500 [req]
    | StoreReply.response false _ (Except.error err) =>
      httpError ("Error decoding search response: " ++ err) 500 [req]
    | StoreReply.response false _ (Except.ok result) =>
      { status := 200, contentType := "application/json", body := result, requests := [req] }

/-! ### Vocabulary of the query properties -/

/-- The clauses that the parameters call for, in the order text, category,
price; an empty parameter gives no clause. -/
def clauses (query category : String) (range : Option (F64 × F64)) : List String :=
  (if query ≠ "" then [matchClause query] else []) ++
  (if category ≠ "" then [termClause category] else []) ++
  (match range with
   | some (minPrice, maxPrice) => [rangeClause minPrice maxPrice]
   | none => [])

/-- Clauses joined by commas inside one boolean container. -/
def boolContainer (cs : List String) : String := boolWrap (String.intercalate "," cs)

/-- The value of a string of decimal digits (`none` when a character is not a
digit); the empty string has value zero. -/
def digitsValue (cs : List Char) : Option Nat :=
  cs.foldl (fun acc c => acc.bind (fun n => if isDecDigit c then some (n * 10 + decDigitVal c) else none))
    (some 0)

/-- The number denoted by a numeral of the form `[-]digits.digits`. -/
def decimalValue (text : List Char) : Option ℚ :=
  let neg := decide (text.head? = some '-')
  let body := if neg then text.drop 1 else text
  let ip := body.takeWhile (fun c => c ≠ '.')
  let fp := (body.dropWhile (fun c => c ≠ '.')).drop 1
  match digitsValue ip, digitsValue fp with
  | some a, some b =>
    if ip = [] ∨ fp = [] then none
    else some ((if neg then -1 else 1) * ((a : ℚ) + (b : ℚ) / (10 : ℚ) ^ fp.length))
  | _, _ => none

/-! ### JSON texts (RFC 8259) -/

/-- The container a JSON value sits in. -/
inductive JCtx where
  | obj : JCtx
  | arr : JCtx
  deriving DecidableEq, Repr

/-- The states of a recogniser of JSON texts. -/
inductive JState where
  /-- A value is expected. -/
  | value : JState
  /-- Just after `[`: a value or `]` is expected. -/
  | arrStart : JState
  /-- Just after an opening brace: a member name or the closing brace is expected. -/
  | objStart : JState
  /-- After a comma in an object: a member name is expected. -/
  | key : JState
  /-- After a member name: a colon is expected. -/
  | colon : JState
  /-- Inside a string; `isKey` tells whether it is a member name. -/
  | str (isKey : Bool) : JState
  /-- After a backslash in a string. -/
  | esc (isKey : Bool) : JState
  /-- In a `\u` escape, with `n` hexadecimal digits still to come. -/
  | hex (isKey : Bool) (n : Nat) : JState
  /-- Inside `true`, `false` or `null`, with `rest` still to come. -/
  | lit (rest : List Char) : JState
  | numMinus : JState
  | numZero : JState
  | numInt : JState
  | numDot : JState
  | numFrac : JState
  | numE : JState
  | numESign : JState
  | numExp : JState
  /-- A value has just been completed. -/
  | done : JState
  deriving DecidableEq, Repr

/-- The white space of JSON: space, tab, line feed, carriage return. -/
def isJsonWs (c : Char) : Bool := c = ' ' || c = '\t' || c = '\n' || c = '\r'

/-- Whether `c` is one of `1` to `9`. -/
def isDigit19 (c : Char) : Bool := decide ('1' ≤ c ∧ c ≤ '9')

/-- The step after a complete value: a comma or the closing of the container. -/
def stepDone (stack : List JCtx) (c : Char) : Option (JState × List JCtx) :=
  if isJsonWs c then some (JState.done, stack)
  else
    match stack with
    | [] => none
    | JCtx.obj :: st =>
      if c = ',' then some (JState.key, JCtx.obj :: st)
      else if c = '\x7d' then some (JState.done, st)
      else none
    | JCtx.arr :: st =>
      if c = ',' then some (JState.value, JCtx.arr :: st)
      else if c = ']' then some (JState.done, st)
      else none

/-- The step at the start of a value. -/
def stepValue (stack : List JCtx) (c : Char) : Option (JState × List JCtx) :=
  if isJsonWs c then some (JState.value, stack)
  else if c = '\x7b' then some (JState.objStart, JCtx.obj :: stack)
  else if c = '[' then some (JState.arrStart, JCtx.arr :: stack)
  else if c = '"' then some (JState.str false, stack)
  else if c = '-' then some (JState.numMinus, stack)
  else if c = '0' then some (JState.numZero, stack)
  else if isDigit19 c then some (JState.numInt, stack)
  else if c = 't' then some (JState.lit "rue".toList, stack)
  else if c = 'f' then some (JState.lit "alse".toList, stack)
  else if c = 'n' then some (JState.lit "ull".toList, stack)
  else none

/-- One step of the recogniser of JSON texts. -/
def jsonStep (conf : JState × List JCtx) (c : Char) : Option (JState × List JCtx) :=
  let stack := conf.2
  match conf.1 with
  | JState.value => stepValue stack c
  | JState.arrStart =>
    if isJsonWs c then some (JState.arrStart, stack)
    else if c = ']' then some (JState.done, stack.drop 1)
    else stepValue stack c
  | JState.objStart =>
    if isJsonWs c then some (JState.objStart, stack)
    else if c = '\x7d' then some (JState.done, stack.drop 1)
    else if c = '"' then some (JState.str true, stack)
    else none
  | JState.key =>
    if isJsonWs c then some (JState.key, stack)
    else if c = '"' then some (JState.str true, stack)
    else none
  | JState.colon =>
    if isJsonWs c then some (JState.colon, stack)
    else if c = ':' then some (JState.value, stack)
    else none
  | JState.str k =>
    if c = '"' then some (if k then JState.colon else JState.done, stack)
    else if c = '\\' then some (JState.esc k, stack)
    else if c.toNat < 0x20 then none
    else some (JState.str k, stack)
  | JState.esc k =>
    if "\"\\/bfnrt".toList.contains c then some (JState.str k, stack)
    else if c = 'u' then some (JState.hex k 4, stack)
    else none
  | JState.hex k n =>
    if isDecDigit c || isHexLetter c then
      some (if n ≤ 1 then JState.str k else JState.hex k (n - 1), stack)
    else none
  | JState.lit rest =>
    match rest with
    | [] => none
    | x :: xs => if c = x then some (if xs = [] then JState.done else JState.lit xs, stack) else none
  | JState.numMinus =>
    if c = '0' then some (JState.numZero, stack)
    else if isDigit19 c then some (JState.numInt, stack)
    else none
  | JState.numZero =>
    if c = '.' then some (JState.numDot, stack)
    else if c = 'e' ∨ c = 'E' then some (JState.numE, stack)
    else stepDone stack c
  | JState.numInt =>
    if isDecDigit c then some (JState.numInt, stack)
    else if c = '.' then some (JState.numDot, stack)
    else if c = 'e' ∨ c = 'E' then some (JState.numE, stack)
    else stepDone stack c
  | JState.numDot => if isDecDigit c then some (JState.numFrac, stack) else none
  | JState.numFrac =>
    if isDecDigit c then some (JState.numFrac, stack)
    else if c = 'e' ∨ c = 'E' then some (JState.numE, stack)
    else stepDone stack c
  | JState.numE =>
    if c = '+' ∨ c = '-' then some (JState.numESign, stack)
    else if isDecDigit c then some (JState.numExp, stack)
    else none
  | JState.numESign => if isDecDigit c then some (JState.numExp, stack) else none
  | JState.numExp =>
    if isDecDigit c then some (JState.numExp, stack) else stepDone stack c
  | JState.done => stepDone stack c

/-- The recogniser run over a text, from a configuration (`none` once a
character cannot be accepted). -/
def jsonRun : Option (JState × List JCtx) → List Char → Option (JState × List JCtx)
  | conf, [] => conf
  | none, _ :: _ => none
  | some conf, c :: cs => jsonRun (jsonStep conf c) cs

/-- Whether the text is one well-formed JSON document: a single value,
with optional white space around it. -/
def isJSON (text : String) : Bool :=
  match jsonRun (some (JState.value, [])) text.toList with
  | some (st, []) =>
    st = JState.done || st = JState.numZero || st = JState.numInt || st = JState.numFrac ||
      st = JState.numExp
  | _ => false

/-- A client whose store answers every search with an empty result. -/
def emptyStore : SearchRequest → StoreReply :=
  fun _ => StoreReply.response false "200 OK" (Except.ok "\x7b\x7d\n")

/-- Whether the text consists of two floating-point numbers separated by a
single `-` character: it splits at some `-` into two parts that
`strconv.ParseFloat` accepts as a whole. -/
def isTwoFloats (text : String) : Bool :=
  (List.range text.length).any fun i =>
    let cs := text.toList
    decide ((cs.drop i).head? = some '-') &&
      (ParseFloat (cs.take i)).toOption.isSome &&
      (ParseFloat (cs.drop (i + 1))).toOption.isSome

end Api

namespace Products

/-! ### Lemmas on the retry loop -/

theorem outcome_zero {σ : Type} (fn : σ → Option String × σ) (s : σ) :
    outcome fn 0 s = (fn s).1 := rfl

theorem outcome_succ {σ : Type} (fn : σ → Option String × σ) (k : Nat) (s : σ) :
    outcome fn (k + 1) s = outcome fn k (fn s).2 := rfl

theorem retryLoop_success {σ : Type} (fn : σ → Option String × σ)
    (rem i : Nat) (s : σ) (tr : List Event) (h : outcome fn 0 s = none) :
    retryLoop fn (rem + 1) i s tr = (none, (fn s).2, tr ++ [Event.call]) := by
  rw [outcome_zero] at h
  rcases hf : fn s with ⟨r, s1⟩
  rw [hf] at h
  simp only at h
  subst h
  simp [retryLoop, hf]

theorem retryLoop_failure {σ : Type} (fn : σ → Option String × σ)
    (rem i : Nat) (s : σ) (tr : List Event) (h : outcome fn 0 s ≠ none) :
    retryLoop fn (rem + 1) i s tr =
      retryLoop fn rem (i + 1) (fn s).2 (tr ++ [Event.call, Event.sleep (backoff i)]) := by
  rw [outcome_zero] at h
  rcases hf : fn s with ⟨r, s1⟩
  rw [hf] at h
  cases r with
  | none => exact absurd rfl h
  | some e => simp [retryLoop, hf]

theorem retryLoop_failRun {σ : Type} (fn : σ → Option String × σ) :
    ∀ (k rem i : Nat) (s : σ) (tr : List Event),
      (∀ j, j < k → outcome fn j s ≠ none) →
      retryLoop fn (rem + k) i s tr =
        retryLoop fn rem (i + k) (stateAfter fn k s) (tr ++ failRun i k) := by
  intro k
  induction k with
  | zero => intro rem i s tr _; simp [failRun, stateAfter]
  | succ k ih =>
    intro rem i s tr h
    have h0 : outcome fn 0 s ≠ none := h 0 (Nat.succ_pos k)
    have hk : ∀ j, j < k → outcome fn j (fn s).2 ≠ none := by
      intro j hj
      rw [← outcome_succ]
      exact h (j + 1) (Nat.succ_lt_succ hj)
    rw [← Nat.add_assoc, retryLoop_failure fn (rem + k) i s tr h0, ih rem (i + 1) _ _ hk]
    simp [failRun, stateAfter, Nat.add_comm, Nat.add_left_comm]

theorem callCount_append (a b : List Event) :
    callCount (a ++ b) = callCount a + callCount b := by
  simp [callCount]

theorem sleeps_append (a b : List Event) : sleeps (a ++ b) = sleeps a ++ sleeps b := by
  induction a with
  | nil => rfl
  | cons e a ih => cases e <;> simp [sleeps, ih]

theorem callCount_failRun : ∀ (k i : Nat), callCount (failRun i k) = k := by
  intro k
  induction k with
  | zero => intro i; rfl
  | succ k ih =>
    intro i
    have := ih (i + 1)
    simp [failRun, callCount] at this ⊢
    exact this

theorem sleeps_failRun : ∀ (k i : Nat),
    sleeps (failRun i k) = (List.range k).map (fun j => backoff (i + j)) := by
  intro k
  induction k with
  | zero => intro i; rfl
  | succ k ih =>
    intro i
    rw [List.range_succ_eq_map]
    simp [failRun, sleeps, ih (i + 1), Nat.add_comm, Nat.add_left_comm, Function.comp_def]

theorem wrapInt64_eq (x : Int) (h1 : -(2 ^ 63) ≤ x) (h2 : x < 2 ^ 63) : wrapInt64 x = x := by
  unfold wrapInt64
  rw [Int.emod_eq_of_lt (by omega) (by omega)]
  omega

theorem backoff_small (i : Nat) (h : i ≤ 36) : backoff i = 2 ^ i * 100 * Millisecond := by
  have hp : (2 : Int) ^ i ≤ 2 ^ 36 := by
    exact_mod_cast Nat.pow_le_pow_right (by decide : 1 ≤ 2) h
  have hpos : (0 : Int) < 2 ^ i := by positivity
  unfold backoff Millisecond
  rw [wrapInt64_eq (1 * 2 ^ i) (by omega) (by omega)]
  rw [wrapInt64_eq (1 * 2 ^ i * 100) (by omega) (by omega)]
  rw [wrapInt64_eq (1 * 2 ^ i * 100 * 1000000) (by omega) (by omega)]
  omega

theorem stateAfter_succ_last {σ : Type} (fn : σ → Option String × σ) :
    ∀ (k : Nat) (s : σ), stateAfter fn (k + 1) s = (fn (stateAfter fn k s)).2 := by
  intro k
  induction k with
  | zero => intro s; rfl
  | succ k ih => intro s; exact ih (fn s).2

/-- With more iterations allowed than failures at the start, the loop ends at
the first success. -/
theorem retryLoop_first_success {σ : Type} (fn : σ → Option String × σ)
    (n N : Nat) (s : σ) (hN : N < n) (hfail : ∀ k, k < N → outcome fn k s ≠ none)
    (hok : outcome fn N s = none) :
    retryLoop fn n 0 s [] = (none, stateAfter fn (N + 1) s, failRun 0 N ++ [Event.call]) := by
  obtain ⟨r, rfl⟩ : ∃ r, n = (r + 1) + N := ⟨n - N - 1, by omega⟩
  rw [retryLoop_failRun fn N (r + 1) 0 s [] hfail]
  rw [retryLoop_success fn r (0 + N) (stateAfter fn N s) _ hok, stateAfter_succ_last]
  simp

/-- With every attempt failing, the loop runs all its iterations. -/
theorem retryLoop_all_fail {σ : Type} (fn : σ → Option String × σ)
    (n : Nat) (s : σ) (hfail : ∀ k, k < n → outcome fn k s ≠ none) :
    retryLoop fn n 0 s [] = (some "max retries exceeded", stateAfter fn n s, failRun 0 n) := by
  have h := retryLoop_failRun fn n 0 0 s [] hfail
  simp only [Nat.zero_add, List.nil_append] at h
  rw [h]
  rfl

theorem sleeps_retryLoop {σ : Type} (fn : σ → Option String × σ) :
    ∀ (rem i : Nat) (s : σ) (tr : List Event),
      ∃ m, m ≤ rem ∧ sleeps (retryLoop fn rem i s tr).2.2 =
        sleeps tr ++ (List.range m).map (fun j => backoff (i + j)) := by
  intro rem
  induction rem with
  | zero => intro i s tr; exact ⟨0, Nat.le_refl 0, by simp [retryLoop]⟩
  | succ rem ih =>
    intro i s tr
    rcases hf : fn s with ⟨r, s1⟩
    cases r with
    | none =>
      refine ⟨0, Nat.zero_le _, ?_⟩
      simp [retryLoop, hf, sleeps_append, sleeps]
    | some e =>
      obtain ⟨m, hm, h⟩ := ih (i + 1) s1 (tr ++ [Event.call, Event.sleep (backoff i)])
      refine ⟨m + 1, Nat.succ_le_succ hm, ?_⟩
      rw [List.range_succ_eq_map]
      simp [retryLoop, hf, h, sleeps_append, sleeps, Nat.add_comm, Nat.add_left_comm,
        Function.comp_def]

theorem backoff_zero : backoff 0 = 100 * Millisecond := by decide

theorem backoff_one : backoff 1 = 200 * Millisecond := by decide

theorem backoff_two : backoff 2 = 400 * Millisecond := by decide

theorem alwaysFails_outcome (k : Nat) : outcome alwaysFails k () ≠ none := by
  simp [outcome, alwaysFails]

/-- C1: when `fn` fails on its first `N` invocations and succeeds on the next
one, with `N < 3`, `retryWithBackoff(3, fn)` returns `nil`, has invoked `fn`
exactly `N + 1` times, has slept exactly `N` times for 100ms, 200ms, ...,
`100 * 2^(N-1)` ms in that order, and its last action is the successful
invocation: the store is left in the state reached after `N + 1` invocations. -/
theorem C1_success_after_failures {σ : Type} (fn : σ → Option String × σ) (s : σ) (N : Nat)
    (hN : N < 3) (hfail : ∀ k, k < N → outcome fn k s ≠ none)
    (hok : outcome fn N s = none) :
    (retryWithBackoff 3 fn s).1 = none ∧
    (retryWithBackoff 3 fn s).2.1 = stateAfter fn (N + 1) s ∧
    callCount (retryWithBackoff 3 fn s).2.2 = N + 1 ∧
    sleeps (retryWithBackoff 3 fn s).2.2 =
      (List.range N).map (fun j => 100 * 2 ^ j * Millisecond) ∧
    (retryWithBackoff 3 fn s).2.2.getLast? = some Event.call := by
  have h : retryWithBackoff 3 fn s =
      (none, stateAfter fn (N + 1) s, failRun 0 N ++ [Event.call]) :=
    retryLoop_first_success fn 3 N s hN hfail hok
  rw [h]
  refine ⟨rfl, rfl, ?_, ?_, by simp⟩
  · rw [callCount_append, callCount_failRun]; rfl
  · rw [sleeps_append, sleeps_failRun]
    simp only [sleeps, List.append_nil, Nat.zero_add]
    apply List.map_congr_left
    intro j hj
    have hj2 : j ≤ 36 := by have := List.mem_range.mp hj; omega
    rw [backoff_small j hj2]
    ring

theorem C1_success_after_failures_witness :
    (retryWithBackoff 3 failsTwice 0).1 = none ∧
    (retryWithBackoff 3 failsTwice 0).2.1 = stateAfter failsTwice (2 + 1) 0 ∧
    callCount (retryWithBackoff 3 failsTwice 0).2.2 = 2 + 1 ∧
    sleeps (retryWithBackoff 3 failsTwice 0).2.2 =
      (List.range 2).map (fun j => 100 * 2 ^ j * Millisecond) ∧
    (retryWithBackoff 3 failsTwice 0).2.2.getLast? = some Event.call :=
  C1_success_after_failures failsTwice 0 2 (by decide) (by decide) (by decide)

/-- C2: when `fn` fails on every invocation, `retryWithBackoff(3, fn)` invokes
it exactly three times (the store is left in the state reached after three
invocations, so there is no fourth) and returns the error
"max retries exceeded", whatever errors the attempts returned. -/
theorem C2_max_retries_exceeded {σ : Type} (fn : σ → Option String × σ) (s : σ)
    (hfail : ∀ k, outcome fn k s ≠ none) :
    (retryWithBackoff 3 fn s).1 = some "max retries exceeded" ∧
    callCount (retryWithBackoff 3 fn s).2.2 = 3 ∧
    (retryWithBackoff 3 fn s).2.1 = stateAfter fn 3 s := by
  have h : retryWithBackoff 3 fn s =
      (some "max retries exceeded", stateAfter fn 3 s, failRun 0 3) :=
    retryLoop_all_fail fn 3 s (fun k _ => hfail k)
  rw [h]
  exact ⟨rfl, callCount_failRun 3 0, rfl⟩

theorem C2_max_retries_exceeded_witness :
    (retryWithBackoff 3 alwaysFails ()).1 = some "max retries exceeded" ∧
    callCount (retryWithBackoff 3 alwaysFails ()).2.2 = 3 ∧
    (retryWithBackoff 3 alwaysFails ()).2.1 = stateAfter alwaysFails 3 () :=
  C2_max_retries_exceeded alwaysFails () alwaysFails_outcome

/-- C9, as stated, fails: with a write function that always fails and
`maxRetries = 3` the sleeps are 100ms, 200ms and 400ms, not only the first
two, and the last action before the failure is returned is the 400ms sleep. -/
theorem C9_counterexample :
    (∀ k, outcome alwaysFails k () ≠ none) ∧
    sleeps (retryWithBackoff 3 alwaysFails ()).2.2 ≠ [100 * Millisecond, 200 * Millisecond] ∧
    sleeps (retryWithBackoff 3 alwaysFails ()).2.2 =
      [100 * Millisecond, 200 * Millisecond, 400 * Millisecond] ∧
    (retryWithBackoff 3 alwaysFails ()).2.2.getLast? = some (Event.sleep (400 * Millisecond)) :=
  ⟨alwaysFails_outcome, by decide, by decide, by decide⟩

/-- C9, amended: `retryWithBackoff` sleeps after every failed attempt, the
last one included.  When `fn` fails on every invocation and `maxRetries = 3`
the actions are: attempt, sleep 100ms, attempt, sleep 200ms, attempt, sleep
400ms, and then the failure is returned. -/
theorem C9_sleep_after_every_failure {σ : Type} (fn : σ → Option String × σ) (s : σ)
    (hfail : ∀ k, outcome fn k s ≠ none) :
    (retryWithBackoff 3 fn s).2.2 =
      [Event.call, Event.sleep (100 * Millisecond),
       Event.call, Event.sleep (200 * Millisecond),
       Event.call, Event.sleep (400 * Millisecond)] ∧
    sleeps (retryWithBackoff 3 fn s).2.2 =
      [100 * Millisecond, 200 * Millisecond, 400 * Millisecond] ∧
    (retryWithBackoff 3 fn s).1 = some "max retries exceeded" := by
  have h : retryWithBackoff 3 fn s =
      (some "max retries exceeded", stateAfter fn 3 s, failRun 0 3) :=
    retryLoop_all_fail fn 3 s (fun k _ => hfail k)
  rw [h]
  refine ⟨?_, ?_, rfl⟩ <;>
    simp [failRun, backoff_zero, backoff_one, backoff_two, sleeps]

theorem C9_sleep_after_every_failure_witness :
    (retryWithBackoff 3 alwaysFails ()).2.2 =
      [Event.call, Event.sleep (100 * Millisecond),
       Event.call, Event.sleep (200 * Millisecond),
       Event.call, Event.sleep (400 * Millisecond)] ∧
    sleeps (retryWithBackoff 3 alwaysFails ()).2.2 =
      [100 * Millisecond, 200 * Millisecond, 400 * Millisecond] ∧
    (retryWithBackoff 3 alwaysFails ()).1 = some "max retries exceeded" :=
  C9_sleep_after_every_failure alwaysFails () alwaysFails_outcome

theorem sleeps_retryWithBackoff {σ : Type} (n : Int) (fn : σ → Option String × σ) (s : σ) :
    ∃ m, sleeps (retryWithBackoff n fn s).2.2 = (List.range m).map backoff := by
  obtain ⟨m, _, h⟩ := sleeps_retryLoop fn n.toNat 0 s []
  refine ⟨m, ?_⟩
  unfold retryWithBackoff
  rw [h]
  simp [sleeps]

theorem backoff_double (j : Nat) (h : j + 1 ≤ 36) : backoff (j + 1) = 2 * backoff j := by
  rw [backoff_small (j + 1) h, backoff_small j (by omega)]
  ring

theorem backoff_37 : backoff 37 = -4702848726509551616 := by decide

/-- C10, as stated, fails: with `maxRetries = 38` and a write function that
always fails, the sleep at index 37 is passed a negative duration, because
`2^37 * 100 * 1000000` does not fit in 64 signed bits. -/
theorem C10_counterexample :
    (sleeps (retryWithBackoff 38 alwaysFails ()).2.2)[37]? = some (-4702848726509551616) ∧
    (-4702848726509551616 : Int) ≠ 2 ^ 37 * 100 * Millisecond ∧
    ¬ (0 : Int) < -4702848726509551616 := by
  refine ⟨?_, by decide, by decide⟩
  have h : retryWithBackoff 38 alwaysFails () =
      (some "max retries exceeded", stateAfter alwaysFails 38 (), failRun 0 38) :=
    retryLoop_all_fail alwaysFails 38 () (fun k _ => alwaysFails_outcome k)
  rw [h, sleeps_failRun]
  simp [backoff_37]

/-- C10, amended: for every `maxRetries` and every write function, the sleep
at a zero-based index `i <= 36` has, in signed 64-bit nanoseconds, exactly the
duration `2^i * 100` milliseconds; it is positive and twice the sleep before
it.  (From index 37 on the product overflows.) -/
theorem C10_backoff_duration {σ : Type} (n : Int) (fn : σ → Option String × σ) (s : σ)
    (i : Nat) (d : Int) (hi : i ≤ 36)
    (hd : (sleeps (retryWithBackoff n fn s).2.2)[i]? = some d) :
    d = 2 ^ i * 100 * Millisecond ∧ 0 < d ∧
    ∀ j, i = j + 1 → (sleeps (retryWithBackoff n fn s).2.2)[j]? = some (2 ^ j * 100 * Millisecond)
      ∧ d = 2 * (2 ^ j * 100 * Millisecond) := by
  obtain ⟨m, hm⟩ := sleeps_retryWithBackoff n fn s
  rw [hm] at hd ⊢
  have him : i < m := by
    by_contra hcon
    have : ((List.range m).map backoff)[i]? = none := by
      apply List.getElem?_eq_none
      simp; omega
    rw [this] at hd
    exact absurd hd (by simp)
  have hdi : d = backoff i := by
    rw [List.getElem?_map, List.getElem?_range him] at hd
    simpa using hd.symm
  have hval : d = 2 ^ i * 100 * Millisecond := by rw [hdi, backoff_small i hi]
  refine ⟨hval, ?_, ?_⟩
  · rw [hval]; unfold Millisecond; positivity
  · intro j hj
    subst hj
    refine ⟨?_, ?_⟩
    · rw [List.getElem?_map, List.getElem?_range (by omega : j < m)]
      simp [backoff_small j (by omega)]
    · rw [hval]; ring

theorem C10_backoff_duration_witness :
    (400000000 : Int) = 2 ^ 2 * 100 * Millisecond ∧ (0 : Int) < 400000000 ∧
    ∀ j, 2 = j + 1 →
      (sleeps (retryWithBackoff 3 alwaysFails ()).2.2)[j]? = some (2 ^ j * 100 * Millisecond)
      ∧ (400000000 : Int) = 2 * (2 ^ j * 100 * Millisecond) :=
  C10_backoff_duration 3 alwaysFails () 2 400000000 (by decide) (by decide)

/-! ### The bulk loader -/

end Products

namespace Api

/-! ### Lemmas on the scanner -/

theorem SkipSpace_suffix : ∀ (l l1 : List Char), SkipSpace l = Except.ok l1 → l1 <:+ l := by
  intro l
  induction l with
  | nil => intro l1 h; simp [SkipSpace] at h; subst h; exact List.suffix_refl _
  | cons r rest ih =>
    intro l1 h
    unfold SkipSpace at h
    split at h
    · exact (ih l1 h).trans (List.suffix_cons r rest)
    · split at h
      · cases h
      · split at h
        · exact (ih l1 h).trans (List.suffix_cons r rest)
        · cases h; exact List.suffix_refl _

theorem accept_suffix (s : ss) (ok : List Char) : (s.accept ok).2.input <:+ s.input := by
  unfold ss.accept
  split
  · rename_i h; simp [h]
  · rename_i r rest h
    split
    · simp [h]
    · simp [h]

theorem acceptAll_suffix (ok : List Char) : ∀ (inp buf : List Char),
    (acceptAll ok buf inp).input <:+ inp := by
  intro inp
  induction inp with
  | nil => intro buf; simp [acceptAll]
  | cons r rest ih =>
    intro buf
    unfold acceptAll
    split
    · exact (ih _).trans (List.suffix_cons r rest)
    · exact List.suffix_refl _

theorem accept3_suffix (s : ss) (a b c : List Char) :
    (s.accept3 a b c).2.input <:+ s.input := by
  unfold ss.accept3
  have h1 := accept_suffix s a
  split
  · rename_i s1 h; rw [h] at h1; exact h1
  · rename_i s1 h
    rw [h] at h1
    have h2 := accept_suffix s1 b
    split
    · rename_i s2 h'; rw [h'] at h2; exact h2.trans h1
    · rename_i s2 h'
      rw [h'] at h2
      exact ((accept_suffix s2 c).trans h2).trans h1

theorem hexStep_suffix (s : ss) :
    (match s.accept "0".toList with
      | (true, s1) => s1.accept "xX".toList
      | (false, s1) => (false, s1)).2.input <:+ s.input := by
  have h1 := accept_suffix s "0".toList
  split
  · rename_i s1 h; rw [h] at h1; exact (accept_suffix s1 "xX".toList).trans h1
  · rename_i s1 h; rw [h] at h1; exact h1

theorem dotStep_suffix (dg : List Char) (s : ss) :
    (match s.accept ".".toList with
      | (true, s1) => acceptAll dg s1.buf s1.input
      | (false, s1) => s1).input <:+ s.input := by
  have h1 := accept_suffix s ".".toList
  split
  · rename_i s1 h; rw [h] at h1; exact (acceptAll_suffix dg s1.input s1.buf).trans h1
  · rename_i s1 h; rw [h] at h1; exact h1

theorem expStep_suffix (ex : List Char) (s : ss) :
    (match s.accept ex with
      | (true, s1) =>
        acceptAll "0123456789_".toList (s1.accept "+-".toList).2.buf
          (s1.accept "+-".toList).2.input
      | (false, s1) => s1).input <:+ s.input := by
  have h1 := accept_suffix s ex
  split
  · rename_i s1 h
    rw [h] at h1
    exact ((acceptAll_suffix _ _ _).trans (accept_suffix s1 "+-".toList)).trans h1
  · rename_i s1 h; rw [h] at h1; exact h1

theorem floatToken_suffix (inp : List Char) : (floatToken inp).2 <:+ inp := by
  unfold floatToken
  simp only
  have h1 := accept3_suffix { buf := [], input := inp } "nN".toList "aA".toList "nN".toList
  split
  · rename_i s h; rw [h] at h1; exact h1
  · rename_i s h
    rw [h] at h1
    have h2 := accept_suffix s "+-".toList
    have h3 := accept3_suffix (s.accept "+-".toList).2 "iI".toList "nN".toList "fF".toList
    split
    · rename_i s' h'; rw [h'] at h3; exact (h3.trans h2).trans h1
    · rename_i s' h'
      rw [h'] at h3
      have h4 : s'.input <:+ inp := (h3.trans h2).trans h1
      exact (expStep_suffix _ _).trans ((dotStep_suffix _ _).trans
        ((acceptAll_suffix _ _ _).trans ((hexStep_suffix s').trans h4)))

theorem scanFloat_suffix (inp rest : List Char) (f : F64)
    (h : scanFloat inp = Except.ok (f, rest)) : rest <:+ inp := by
  unfold scanFloat at h
  split at h
  · cases h
  · rename_i inp1 h1
    have s1 := SkipSpace_suffix inp inp1 h1
    split at h
    · cases h
    · cases h
    · rename_i r rs h2
      have s2 := SkipSpace_suffix inp1 (r :: rs) h2
      simp only at h
      split at h
      · cases h
      · rename_i g hg
        cases h
        exact ((floatToken_suffix (r :: rs)).trans s2).trans s1

/-- A price range without any `-` is rejected by `Sscanf`. -/
theorem Sscanf_needs_dash (str : String) (h : '-' ∉ str.toList) :
    ∃ err, Sscanf str = Except.error err := by
  unfold Sscanf
  split
  · rename_i err _; exact ⟨err, rfl⟩
  · rename_i minPrice rest hs
    have hsuf := scanFloat_suffix _ _ _ hs
    split
    · exact ⟨_, rfl⟩
    · rename_i r rest1
      split
      · exact ⟨_, rfl⟩
      · rename_i hr
        have hr2 : r = '-' := by simpa using hr
        subst hr2
        exact absurd (hsuf.subset (List.mem_cons_self _ _)) h

set_option maxRecDepth 100000

/-! ### Lemmas on the assembly of the query -/

theorem matchClause_ne_empty (query : String) : matchClause query ≠ "" := by
  intro h
  have := congrArg String.length h
  simp only [matchClause, String.length_append] at this
  have h2 : "\"\x7d\x7d\x7d".length ≠ 0 := by decide
  have h3 : "".length = 0 := by decide
  omega

theorem termClause_ne_empty (category : String) : termClause category ≠ "" := by
  intro h
  have := congrArg String.length h
  simp only [termClause, String.length_append] at this
  have h2 : "\"\x7d\x7d\x7d".length ≠ 0 := by decide
  have h3 : "".length = 0 := by decide
  omega

theorem append_ne_empty_left (a b : String) (h : a ≠ "") : a ++ b ≠ "" := by
  intro hab
  apply h
  have h1 := congrArg String.length hab
  simp [String.length_append] at h1
  apply String.ext
  have : a.data.length = 0 := h1.1
  simpa using List.length_eq_zero.mp this

theorem append_ne_empty_right (a b : String) (h : b ≠ "") : a ++ b ≠ "" := by
  intro hab
  apply h
  have h1 := congrArg String.length hab
  simp [String.length_append] at h1
  apply String.ext
  have : b.data.length = 0 := h1.2
  simpa using List.length_eq_zero.mp this

theorem rangeClause_ne_empty (a b : F64) : rangeClause a b ≠ "" := by
  unfold rangeClause
  apply append_ne_empty_right
  decide

theorem empty_append (a : String) : "" ++ a = a := by
  apply String.ext; simp

theorem Sscanf_empty : Sscanf "" = Except.error "unexpected EOF" := by rfl

theorem requests_of_queryDSL (client : SearchRequest → StoreReply)
    (query category priceRange dsl : String)
    (h : queryDSL query category priceRange = some dsl) :
    (SearchHandler client query category priceRange).requests =
      [{ Index := ["products"], Body := dsl }] := by
  unfold SearchHandler
  rw [h]
  simp only
  rcases client { Index := ["products"], Body := dsl } with err | ⟨isErr, status, dec⟩
  · rfl
  · cases isErr with
    | true => rfl
    | false =>
      cases dec with
      | error e => rfl
      | ok r => rfl

theorem rejected_of_queryDSL (client : SearchRequest → StoreReply)
    (query category priceRange : String)
    (h : queryDSL query category priceRange = none) :
    SearchHandler client query category priceRange =
      httpError "Invalid price range format" 400 [] := by
  unfold SearchHandler
  rw [h]

theorem queryDSL_of_scan_error (query category priceRange err : String)
    (hne : priceRange ≠ "") (h : Sscanf priceRange = Except.error err) :
    queryDSL query category priceRange = none := by
  simp [queryDSL, hne, h]

theorem queryDSL_clauses (query category priceRange : String) (minPrice maxPrice : F64)
    (hsome : query ≠ "" ∨ category ≠ "" ∨ priceRange ≠ "")
    (hparse : priceRange ≠ "" → Sscanf priceRange = Except.ok (minPrice, maxPrice)) :
    queryDSL query category priceRange =
      some (boolContainer (clauses query category
        (if priceRange ≠ "" then some (minPrice, maxPrice) else none))) := by
  have hm := matchClause_ne_empty query
  have ht := termClause_ne_empty category
  have hr := rangeClause_ne_empty minPrice maxPrice
  by_cases hq : query = "" <;> by_cases hc : category = "" <;> by_cases hp : priceRange = ""
  all_goals first
    | (exfalso; simp [hq, hc, hp] at hsome; done)
    | simp [queryDSL, clauses, boolContainer, hq, hc, hp, hparse, hm, ht, hr, empty_append,
        String.intercalate, String.intercalate.go, append_ne_empty_left,
        append_ne_empty_right, String.append_assoc]

/-- C3, as stated, fails: the price range `10-20x` does not consist of two
floating-point numbers separated by a `-`, and yet the handler answers 200 and
sends a search request with the range 10 to 20: `Sscanf` does not look at the
input after the second number. -/
theorem C3_counterexample :
    isTwoFloats "10-20x" = false ∧ "10-20x" ≠ "" ∧
    (SearchHandler emptyStore "" "" "10-20x").status = 200 ∧
    (SearchHandler emptyStore "" "" "10-20x").requests =
      [{ Index := ["products"], Body := "\x7b\"bool\":\x7b\x7b\"filter\":\x7b\"range\":\x7b\"price\":\x7b\"gte\":10.000000,\"lte\":20.000000\x7d\x7d\x7d\x7d\x7d\x7d" }] := by
  refine ⟨by decide, by decide, by decide, by decide⟩

/-- C3, amended: for every non-empty price range on which
`fmt.Sscanf(priceRange, "%f-%f", ...)` reports an error, and whatever the
query and the category, the handler answers 400 with the text "Invalid price
range format" and sends no search request to the store.  `Sscanf` reports an
error for `abc`, `10` and `10-`, and for every text without a `-`. -/
theorem C3_unparsable_range_rejected (client : SearchRequest → StoreReply)
    (query category priceRange : String)
    (hne : priceRange ≠ "") (herr : ∃ err, Sscanf priceRange = Except.error err) :
    ((SearchHandler client query category priceRange).status = 400 ∧
     (SearchHandler client query category priceRange).body = "Invalid price range format\n" ∧
     (SearchHandler client query category priceRange).requests = []) ∧
    (∀ text : String, '-' ∉ text.toList → ∃ err, Sscanf text = Except.error err) ∧
    (∃ err, Sscanf "abc" = Except.error err) ∧ (∃ err, Sscanf "10" = Except.error err) ∧
    (∃ err, Sscanf "10-" = Except.error err) := by
  obtain ⟨err, herr⟩ := herr
  rw [rejected_of_queryDSL client query category priceRange
    (queryDSL_of_scan_error query category priceRange err hne herr)]
  exact ⟨⟨rfl, rfl, rfl⟩, Sscanf_needs_dash, ⟨_, rfl⟩, ⟨_, rfl⟩, ⟨_, rfl⟩⟩

theorem C3_unparsable_range_rejected_witness :
    ((SearchHandler emptyStore "phone" "Electronics" "10-").status = 400 ∧
     (SearchHandler emptyStore "phone" "Electronics" "10-").body =
       "Invalid price range format\n" ∧
     (SearchHandler emptyStore "phone" "Electronics" "10-").requests = []) ∧
    (∀ text : String, '-' ∉ text.toList → ∃ err, Sscanf text = Except.error err) ∧
    (∃ err, Sscanf "abc" = Except.error err) ∧ (∃ err, Sscanf "10" = Except.error err) ∧
    (∃ err, Sscanf "10-" = Except.error err) :=
  C3_unparsable_range_rejected emptyStore "phone" "Electronics" "10-"
    (by decide) ⟨"unexpected EOF", by rfl⟩

/-- C4, as stated, fails: with the three parameters empty the body sent to
the store is the empty string, which is not a JSON document. -/
theorem C4_counterexample :
    (SearchHandler emptyStore "" "" "").requests = [{ Index := ["products"], Body := "" }] ∧
    isJSON "" = false := by
  refine ⟨by decide, by decide⟩

/-- C4, amended: when query, category and priceRange are all empty, the
handler sends exactly one search request, on the index `products`, whose body
is the empty string: no clause was built, and the wrapping into a boolean
container is skipped. -/
theorem C4_empty_parameters_empty_body (client : SearchRequest → StoreReply) :
    (SearchHandler client "" "" "").requests = [{ Index := ["products"], Body := "" }] :=
  requests_of_queryDSL client "" "" "" "" (by decide)

/-- C6 at the request `query=phone`: the body sent to the store is not a
well-formed JSON document, because the boolean container is an object whose
content starts with an opening brace where a member name must stand. -/
theorem C6_body_not_json :
    (SearchHandler emptyStore "phone" "" "").requests =
      [{ Index := ["products"], Body := "\x7b\"bool\":\x7b\x7b\"query\":\x7b\"match\":\x7b\"name\":\"phone\"\x7d\x7d\x7d\x7d\x7d" }] ∧
    isJSON "\x7b\"bool\":\x7b\x7b\"query\":\x7b\"match\":\x7b\"name\":\"phone\"\x7d\x7d\x7d\x7d\x7d" = false := by
  refine ⟨by decide, by decide⟩

/-! ### Lemmas on `%f` -/

theorem digitChar_spec (d : Nat) :
    isDecDigit (digitChar d) = true ∧ decDigitVal (digitChar d) = d % 10 := by
  have h : ∀ k, k < 10 →
      isDecDigit (Char.ofNat ('0'.toNat + k)) = true ∧
      decDigitVal (Char.ofNat ('0'.toNat + k)) = k := by decide
  exact h (d % 10) (Nat.mod_lt d (by decide))

theorem isDecDigit_ne_dot (c : Char) (h : isDecDigit c = true) : c ≠ '.' := by
  intro hc; subst hc; revert h; decide

theorem isDecDigit_ne_minus (c : Char) (h : isDecDigit c = true) : c ≠ '-' := by
  intro hc; subst hc; revert h; decide

theorem digitsValue_snoc (ds : List Char) (c : Char) (n : Nat)
    (h : digitsValue ds = some n) (hc : isDecDigit c = true) :
    digitsValue (ds ++ [c]) = some (n * 10 + decDigitVal c) := by
  unfold digitsValue at h ⊢
  rw [List.foldl_append, h]
  simp [hc]

theorem natDigitsAux_spec : ∀ (fuel n : Nat) (acc : List Char), n < fuel →
    ∃ ds, natDigitsAux fuel n acc = ds ++ acc ∧ ds ≠ [] ∧
      (∀ c, c ∈ ds → isDecDigit c = true) ∧ digitsValue ds = some n := by
  intro fuel
  induction fuel with
  | zero => intro n acc h; exact absurd h (Nat.not_lt_zero n)
  | succ fuel ih =>
    intro n acc h
    by_cases hn : n < 10
    · refine ⟨[digitChar n], ?_, by simp, ?_, ?_⟩
      · simp [natDigitsAux, hn]
      · intro c hc
        rw [List.mem_singleton.mp hc]
        exact (digitChar_spec n).1
      · have := digitsValue_snoc [] (digitChar n) 0 rfl (digitChar_spec n).1
        rw [(digitChar_spec n).2, Nat.mod_eq_of_lt hn] at this
        simpa using this
    · obtain ⟨ds, h1, _, h3, h4⟩ := ih (n / 10) (digitChar n :: acc) (by omega)
      refine ⟨ds ++ [digitChar n], ?_, by simp, ?_, ?_⟩
      · simp [natDigitsAux, hn, h1]
      · intro c hc
        rcases List.mem_append.mp hc with hc | hc
        · exact h3 c hc
        · rw [List.mem_singleton.mp hc]; exact (digitChar_spec n).1
      · rw [digitsValue_snoc ds (digitChar n) (n / 10) h4 (digitChar_spec n).1,
          (digitChar_spec n).2]
        congr 1
        omega

theorem natDigits_spec (n : Nat) :
    natDigits n ≠ [] ∧ (∀ c, c ∈ natDigits n → isDecDigit c = true) ∧
      digitsValue (natDigits n) = some n := by
  obtain ⟨ds, h1, h2, h3, h4⟩ := natDigitsAux_spec (n + 1) n [] (Nat.lt_succ_self n)
  have : natDigits n = ds := by simpa [natDigits] using h1
  rw [this]
  exact ⟨h2, h3, h4⟩

theorem fixedDigits_spec : ∀ (k n : Nat),
    (fixedDigits k n).length = k ∧ (∀ c, c ∈ fixedDigits k n → isDecDigit c = true) ∧
      digitsValue (fixedDigits k n) = some (n % 10 ^ k) := by
  intro k
  induction k with
  | zero => intro n; simp [fixedDigits, digitsValue, Nat.mod_one]
  | succ k ih =>
    intro n
    obtain ⟨h1, h2, h3⟩ := ih (n / 10)
    refine ⟨by simp [fixedDigits, h1], ?_, ?_⟩
    · intro c hc
      rcases List.mem_append.mp hc with hc | hc
      · exact h2 c hc
      · rw [List.mem_singleton.mp hc]; exact (digitChar_spec n).1
    · simp only [fixedDigits]
      rw [digitsValue_snoc _ (digitChar n) _ h3 (digitChar_spec n).1, (digitChar_spec n).2]
      congr 1
      rw [Nat.pow_succ, Nat.mul_comm (10 ^ k) 10, Nat.mod_mul]
      omega

theorem takeWhile_dot (ds rest : List Char) (h : ∀ c, c ∈ ds → c ≠ '.') :
    (ds ++ '.' :: rest).takeWhile (fun c => c ≠ '.') = ds ∧
    (ds ++ '.' :: rest).dropWhile (fun c => c ≠ '.') = '.' :: rest := by
  induction ds with
  | nil => simp
  | cons d ds ih =>
    have hd : d ≠ '.' := h d (List.mem_cons_self d ds)
    have := ih (fun c hc => h c (List.mem_cons_of_mem d hc))
    simpa [List.takeWhile, List.dropWhile, hd] using this

/-- The numeral with six decimals written for `K` millionths, with or without
a sign, denotes `K / 10^6` with that sign. -/
theorem decimalValue_fixed6 (neg : Bool) (K : Nat) :
    decimalValue ((if neg then "-" else "") ++ fixed6 K).toList =
      some ((if neg then -1 else 1) * ((K : ℚ) / 1000000)) := by
  obtain ⟨a1, a2, a3⟩ := natDigits_spec (K / 1000000)
  obtain ⟨b1, b2, b3⟩ := fixedDigits_spec 6 (K % 1000000)
  have hdot : ∀ c, c ∈ natDigits (K / 1000000) → c ≠ '.' :=
    fun c hc => isDecDigit_ne_dot c (a2 c hc)
  obtain ⟨t1, t2⟩ := takeWhile_dot (natDigits (K / 1000000)) (fixedDigits 6 (K % 1000000)) hdot
  have hfp : fixedDigits 6 (K % 1000000) ≠ [] := by
    intro h0; rw [h0] at b1; simp at b1
  have hval : ((K / 1000000 : Nat) : ℚ) + ((K % 1000000 : Nat) : ℚ) / (10 : ℚ) ^ 6 =
      (K : ℚ) / 1000000 := by
    have h2 : (K : ℚ) = ((K / 1000000 : Nat) : ℚ) * 1000000 + ((K % 1000000 : Nat) : ℚ) := by
      have := Nat.div_add_mod K 1000000
      exact_mod_cast (by omega : K = K / 1000000 * 1000000 + K % 1000000)
    rw [h2]
    field_simp
    norm_num
  cases neg with
  | true =>
    have htext : ("-" ++ fixed6 K).toList =
        '-' :: (natDigits (K / 1000000) ++ '.' :: fixedDigits 6 (K % 1000000)) := by
      simp [fixed6]
    simp only [if_true, htext]
    unfold decimalValue
    simp only [List.head?_cons, decide_True, if_true, List.drop_one, List.tail_cons, t1, t2,
      a3, b3, b1]
    simp [a1, hfp]
    linarith [hval]
  | false =>
    have htext : ("" ++ fixed6 K).toList =
        natDigits (K / 1000000) ++ '.' :: fixedDigits 6 (K % 1000000) := by
      simp [fixed6]
    have hhead : ¬ ((natDigits (K / 1000000) ++ '.' :: fixedDigits 6 (K % 1000000)).head? =
        some '-') := by
      intro hh
      cases hds : natDigits (K / 1000000) with
      | nil => exact a1 hds
      | cons d ds =>
        rw [hds] at hh
        simp at hh
        exact isDecDigit_ne_minus d (a2 d (by rw [hds]; exact List.mem_cons_self d ds)) hh
    simp only [Bool.false_eq_true, if_false, htext]
    unfold decimalValue
    simp only [hhead, decide_False, Bool.false_eq_true, if_false, List.drop_one, List.tail_cons,
      t1, t2, a3, b3, b1]
    simp [a1, hfp]
    exact hval

theorem roundHalfEven_bound (num den : Nat) (hden : 0 < den) :
    |((roundHalfEven num den : Nat) : ℚ) - (num : ℚ) / (den : ℚ)| ≤ 1 / 2 := by
  have hd : (0 : ℚ) < (den : ℚ) := by exact_mod_cast hden
  have hsplit : (num : ℚ) / (den : ℚ) = ((num / den : Nat) : ℚ) + ((num % den : Nat) : ℚ) / den := by
    have h := Nat.div_add_mod num den
    have h2 : (num : ℚ) = (den : ℚ) * ((num / den : Nat) : ℚ) + ((num % den : Nat) : ℚ) := by
      exact_mod_cast h.symm
    field_simp
    linarith
  have hr : num % den < den := Nat.mod_lt num hden
  have hrq : ((num % den : Nat) : ℚ) < (den : ℚ) := by exact_mod_cast hr
  have hr0 : (0 : ℚ) ≤ ((num % den : Nat) : ℚ) := by positivity
  unfold roundHalfEven
  simp only
  split
  · rename_i hup
    have h2r : den ≤ 2 * (num % den) := by
      rcases hup with h | ⟨h, _⟩ <;> omega
    have h2rq : (den : ℚ) ≤ 2 * ((num % den : Nat) : ℚ) := by exact_mod_cast h2r
    rw [hsplit, abs_le]
    push_cast
    constructor
    · have : ((num % den : Nat) : ℚ) / den ≤ 1 := by
        rw [div_le_one hd]; exact le_of_lt hrq
      push_cast at this
      linarith
    · have : (1 : ℚ) / 2 ≤ ((num % den : Nat) : ℚ) / den := by
        rw [le_div_iff₀ hd]; linarith
      push_cast at this
      linarith
  · rename_i hup
    have h2r : 2 * (num % den) ≤ den := by
      by_contra hcon
      exact hup (Or.inl (by omega))
    have h2rq : 2 * ((num % den : Nat) : ℚ) ≤ (den : ℚ) := by exact_mod_cast h2r
    have h0 : (0 : ℚ) ≤ ((num % den : Nat) : ℚ) / den := by positivity
    have h1 : ((num % den : Nat) : ℚ) / den ≤ 1 / 2 := by
      rw [div_le_iff₀ hd]; linarith
    rw [hsplit, abs_le]
    constructor <;> linarith

theorem roundHalfEven_exact (num den : Nat) (hden : 0 < den) (h : den ∣ num) :
    roundHalfEven num den = num / den := by
  have hr : num % den = 0 := Nat.mod_eq_zero_of_dvd h
  unfold roundHalfEven
  simp only [hr]
  split
  · rename_i hup
    rcases hup with h1 | ⟨h1, _⟩ <;> omega
  · rfl

theorem millionths_spec (m : Nat) (e : Int) :
    |((millionths m e : Nat) : ℚ) - (m : ℚ) * (2 : ℚ) ^ e * 1000000| ≤ 1 / 2 ∧
    ((∃ n : ℤ, (m : ℚ) * (2 : ℚ) ^ e * 1000000 = n) →
      ((millionths m e : Nat) : ℚ) = (m : ℚ) * (2 : ℚ) ^ e * 1000000) := by
  by_cases he : 0 ≤ e
  · obtain ⟨k, rfl⟩ := Int.eq_ofNat_of_zero_le he
    have hK : ((millionths m (k : Int) : Nat) : ℚ) = (m : ℚ) * (2 : ℚ) ^ (k : Int) * 1000000 := by
      simp [millionths, Nat.shiftLeft_eq]
    rw [hK]
    refine ⟨by norm_num, fun _ => rfl⟩
  · obtain ⟨k, hk⟩ : ∃ k : Nat, e = -(k : Int) := ⟨(-e).toNat, by omega⟩
    subst hk
    have hden : 0 < 2 ^ k := Nat.pow_pos (by decide)
    have hK : millionths m (-(k : Int)) = roundHalfEven (m * 1000000) (2 ^ k) := by
      simp [millionths, he, Nat.shiftLeft_eq]
    have hv : (m : ℚ) * (2 : ℚ) ^ (-(k : Int)) * 1000000 =
        ((m * 1000000 : Nat) : ℚ) / ((2 ^ k : Nat) : ℚ) := by
      rw [zpow_neg, zpow_natCast]
      push_cast
      field_simp
    rw [hK, hv]
    refine ⟨roundHalfEven_bound _ _ hden, ?_⟩
    rintro ⟨n, hn⟩
    have hq : (0 : ℚ) < ((2 ^ k : Nat) : ℚ) := by exact_mod_cast hden
    have hz : ((m * 1000000 : Nat) : ℤ) = n * ((2 ^ k : Nat) : ℤ) := by
      have : ((m * 1000000 : Nat) : ℚ) = (n : ℚ) * ((2 ^ k : Nat) : ℚ) := by
        rw [← hn]; field_simp
      exact_mod_cast this
    have hdvd : 2 ^ k ∣ m * 1000000 := by
      apply Int.natCast_dvd_natCast.mp
      exact ⟨n, by rw [hz]; ring⟩
    rw [roundHalfEven_exact _ _ hden hdvd, Nat.cast_div hdvd (ne_of_gt hq)]

/-- The text written by `%f` for a finite `float64` denotes that number
rounded to the nearest millionth: it is the number itself when the number is
a whole count of millionths, and within half a millionth of it otherwise. -/
theorem formatF_value (neg : Bool) (m : Nat) (e : Int) (v : ℚ)
    (hv : (F64.fin neg m e).value = some v) :
    ∃ w, decimalValue (formatF (F64.fin neg m e)).toList = some w ∧
      |w - v| ≤ 1 / 2000000 ∧ ((∃ n : ℤ, v * 1000000 = n) → w = v) := by
  obtain ⟨hb, hx⟩ := millionths_spec m e
  refine ⟨_, decimalValue_fixed6 neg (millionths m e), ?_, ?_⟩
  · simp only [F64.value, Option.some.injEq] at hv
    subst hv
    have : (if neg = true then (-1 : ℚ) else 1) * ((millionths m e : ℚ) / 1000000) -
        (if neg = true then (-1 : ℚ) else 1) * (m : ℚ) * (2 : ℚ) ^ e =
        (if neg = true then (-1 : ℚ) else 1) *
          (((millionths m e : ℚ) - (m : ℚ) * (2 : ℚ) ^ e * 1000000) / 1000000) := by
      ring
    rw [this, abs_mul, abs_div]
    have hs : |(if neg = true then (-1 : ℚ) else 1)| = 1 := by
      cases neg <;> simp
    rw [hs, one_mul, abs_of_pos (by norm_num : (0 : ℚ) < 1000000), div_le_iff₀ (by norm_num)]
    linarith
  · simp only [F64.value, Option.some.injEq] at hv
    subst hv
    rintro ⟨n, hn⟩
    have hint : ∃ n' : ℤ, (m : ℚ) * (2 : ℚ) ^ e * 1000000 = n' := by
      cases neg with
      | true => exact ⟨-n, by push_cast; simp at hn; linarith⟩
      | false => exact ⟨n, by simp at hn; linarith⟩
    rw [hx hint]
    ring

theorem roundHalfEven_tie (num den : Nat) (hden : 0 < den)
    (h : |((roundHalfEven num den : Nat) : ℚ) - (num : ℚ) / (den : ℚ)| = 1 / 2) :
    roundHalfEven num den % 2 = 0 := by
  have hd : (0 : ℚ) < (den : ℚ) := by exact_mod_cast hden
  have hsplit : (num : ℚ) / (den : ℚ) = ((num / den : Nat) : ℚ) + ((num % den : Nat) : ℚ) / den := by
    have h0 := Nat.div_add_mod num den
    have h2 : (num : ℚ) = (den : ℚ) * ((num / den : Nat) : ℚ) + ((num % den : Nat) : ℚ) := by
      exact_mod_cast h0.symm
    field_simp
    linarith
  have hr : num % den < den := Nat.mod_lt num hden
  have hrq : ((num % den : Nat) : ℚ) < (den : ℚ) := by exact_mod_cast hr
  have hr0 : (0 : ℚ) ≤ ((num % den : Nat) : ℚ) / den := by positivity
  have hr1 : ((num % den : Nat) : ℚ) / den < 1 := by
    rw [div_lt_one hd]; exact hrq
  have htie : ∀ t : ℚ, t = 1 / 2 → ((num % den : Nat) : ℚ) / den = t → 2 * (num % den) = den := by
    intro t ht hq
    rw [ht, div_eq_iff (ne_of_gt hd)] at hq
    have : (2 : ℚ) * ((num % den : Nat) : ℚ) = (den : ℚ) := by linarith
    exact_mod_cast this
  unfold roundHalfEven at h ⊢
  simp only at h ⊢
  split
  · rename_i hup
    rw [if_pos hup, hsplit] at h
    have hval : ((num / den + 1 : Nat) : ℚ) - (((num / den : Nat) : ℚ) +
        ((num % den : Nat) : ℚ) / den) = 1 - ((num % den : Nat) : ℚ) / den := by
      push_cast; ring
    rw [hval, abs_of_nonneg (by linarith)] at h
    have h2 : 2 * (num % den) = den := htie (1 / 2) rfl (by linarith)
    rcases hup with h1 | ⟨_, hodd⟩
    · omega
    · omega
  · rename_i hup
    rw [if_neg hup, hsplit] at h
    have hval : ((num / den : Nat) : ℚ) - (((num / den : Nat) : ℚ) +
        ((num % den : Nat) : ℚ) / den) = -(((num % den : Nat) : ℚ) / den) := by
      ring
    rw [hval, abs_neg, abs_of_nonneg hr0] at h
    have h2 : 2 * (num % den) = den := htie (1 / 2) rfl h
    have hq : ¬ (num / den % 2 = 1) := fun hodd => hup (Or.inr ⟨h2, hodd⟩)
    omega

theorem millionths_tie (m : Nat) (e : Int)
    (h : |((millionths m e : Nat) : ℚ) - (m : ℚ) * (2 : ℚ) ^ e * 1000000| = 1 / 2) :
    millionths m e % 2 = 0 := by
  by_cases he : 0 ≤ e
  · obtain ⟨k, rfl⟩ := Int.eq_ofNat_of_zero_le he
    have hK : ((millionths m (k : Int) : Nat) : ℚ) = (m : ℚ) * (2 : ℚ) ^ (k : Int) * 1000000 := by
      simp [millionths, Nat.shiftLeft_eq]
    rw [hK] at h
    norm_num at h
  · obtain ⟨k, hk⟩ : ∃ k : Nat, e = -(k : Int) := ⟨(-e).toNat, by omega⟩
    subst hk
    have hden : 0 < 2 ^ k := Nat.pow_pos (by decide)
    have hK : millionths m (-(k : Int)) = roundHalfEven (m * 1000000) (2 ^ k) := by
      simp [millionths, he, Nat.shiftLeft_eq]
    have hv : (m : ℚ) * (2 : ℚ) ^ (-(k : Int)) * 1000000 =
        ((m * 1000000 : Nat) : ℚ) / ((2 ^ k : Nat) : ℚ) := by
      rw [zpow_neg, zpow_natCast]
      push_cast
      field_simp
    rw [hK, hv] at h
    rw [hK]
    exact roundHalfEven_tie _ _ hden h

theorem fixed6_shape (K : Nat) :
    ∃ ip fp, (fixed6 K).toList = ip ++ '.' :: fp ∧ ip ≠ [] ∧ fp.length = 6 ∧
      digitsValue ip = some (K / 1000000) ∧ digitsValue fp = some (K % 1000000) := by
  obtain ⟨a1, _, a3⟩ := natDigits_spec (K / 1000000)
  obtain ⟨b1, _, b3⟩ := fixedDigits_spec 6 (K % 1000000)
  refine ⟨natDigits (K / 1000000), fixedDigits 6 (K % 1000000), by simp [fixed6], a1, b1, a3, ?_⟩
  rw [b3]
  congr 1
  norm_num

/-- What `%f` writes for a finite `float64` of magnitude `m * 2^e`: the
numeral, with a sign for a negative number and exactly six digits after the
point, of `K` millionths, where `K` is the integer nearest to the magnitude
in millionths and, when two integers are equally near, the even one. -/
theorem formatF_fin_spec (neg : Bool) (m : Nat) (e : Int) :
    ∃ K : Nat,
      formatF (F64.fin neg m e) = (if neg then "-" else "") ++ fixed6 K ∧
      (∃ ip fp, (fixed6 K).toList = ip ++ '.' :: fp ∧ ip ≠ [] ∧ fp.length = 6 ∧
        digitsValue ip = some (K / 1000000) ∧ digitsValue fp = some (K % 1000000)) ∧
      decimalValue (formatF (F64.fin neg m e)).toList =
        some ((if neg then -1 else 1) * ((K : ℚ) / 1000000)) ∧
      |(K : ℚ) - (m : ℚ) * (2 : ℚ) ^ e * 1000000| ≤ 1 / 2 ∧
      (|(K : ℚ) - (m : ℚ) * (2 : ℚ) ^ e * 1000000| = 1 / 2 → K % 2 = 0) :=
  ⟨millionths m e, rfl, fixed6_shape _, decimalValue_fixed6 neg _, (millionths_spec m e).1,
    millionths_tie m e⟩

theorem body_ends_with_range (query category : String) (minPrice maxPrice : F64) :
    ∃ pre, boolContainer (clauses query category (some (minPrice, maxPrice))) =
      pre ++ rangeClause minPrice maxPrice ++ "\x7d\x7d" := by
  by_cases hq : query = "" <;> by_cases hc : category = ""
  · exact ⟨"\x7b\"bool\":\x7b", by
      simp [boolContainer, clauses, hq, hc, boolWrap, String.intercalate,
        String.intercalate.go, empty_append]⟩
  · exact ⟨"\x7b\"bool\":\x7b" ++ termClause category ++ ",", by
      simp [boolContainer, clauses, hq, hc, boolWrap, String.intercalate,
        String.intercalate.go, empty_append, String.append_assoc]⟩
  · exact ⟨"\x7b\"bool\":\x7b" ++ matchClause query ++ ",", by
      simp [boolContainer, clauses, hq, hc, boolWrap, String.intercalate,
        String.intercalate.go, empty_append, String.append_assoc]⟩
  · exact ⟨"\x7b\"bool\":\x7b" ++ matchClause query ++ "," ++ termClause category ++ ",", by
      simp [boolContainer, clauses, hq, hc, boolWrap, String.intercalate,
        String.intercalate.go, empty_append, String.append_assoc]⟩

/-- C7, as stated, fails: for the price range `0.0000001-0.0000002` the
number parsed as the lower bound is not zero, and the bounds written into the
body are both `0.000000`, which denotes zero: `%f` keeps six digits after the
point. -/
theorem C7_counterexample :
    Sscanf "0.0000001-0.0000002" =
      Except.ok (F64.fin false 7555786372591432 (-76), F64.fin false 7555786372591432 (-75)) ∧
    (F64.fin false 7555786372591432 (-76)).value ≠ some 0 ∧
    (SearchHandler emptyStore "" "" "0.0000001-0.0000002").requests =
      [{ Index := ["products"], Body := "\x7b\"bool\":\x7b\x7b\"filter\":\x7b\"range\":\x7b\"price\":\x7b\"gte\":0.000000,\"lte\":0.000000\x7d\x7d\x7d\x7d\x7d\x7d" }] ∧
    decimalValue "0.000000".toList = some 0 := by
  refine ⟨by rfl, ?_, by decide, ?_⟩
  · simp only [F64.value, ne_eq, Option.some.injEq]
    norm_num
  · have h := decimalValue_fixed6 false 0
    have h2 : ((if false = true then "-" else "") ++ fixed6 0) = "0.000000" := by decide
    rw [h2] at h
    simpa using h

/-- C7, amended: for every price range that `Sscanf` parses as `minPrice` and
`maxPrice`, whatever their order, the body sent ends with the range clause on
`price` whose `gte` is the `%f` text of `minPrice` and whose `lte` is the `%f`
text of `maxPrice`.  The `%f` text of a finite number has exactly six digits
after the point and denotes a whole number `K` of millionths, with the sign of
the number: `K` is the integer nearest to the magnitude in millionths, the
even one of two equally near.  So the text denotes the bound itself when the
bound is a whole number of millionths, and a number within half a millionth
of it otherwise.  NaN and the infinities are written `NaN`, `+Inf`, `-Inf`. -/
theorem C7_range_bounds_six_decimals (client : SearchRequest → StoreReply)
    (query category priceRange : String) (minPrice maxPrice : F64)
    (hparse : Sscanf priceRange = Except.ok (minPrice, maxPrice)) :
    (∃ pre, (SearchHandler client query category priceRange).requests =
      [{ Index := ["products"],
         Body := pre ++ ("\x7b\"filter\":\x7b\"range\":\x7b\"price\":\x7b\"gte\":" ++ formatF minPrice ++
           ",\"lte\":" ++ formatF maxPrice ++ "\x7d\x7d\x7d\x7d") ++ "\x7d\x7d" }]) ∧
    (∀ x v, x = minPrice ∨ x = maxPrice → x.value = some v →
      ∃ w, decimalValue (formatF x).toList = some w ∧
        |w - v| ≤ 1 / 2000000 ∧ ((∃ n : ℤ, v * 1000000 = n) → w = v)) ∧
    (∀ (neg : Bool) (m : Nat) (e : Int), ∃ K : Nat,
      formatF (F64.fin neg m e) = (if neg then "-" else "") ++ fixed6 K ∧
      (∃ ip fp, (fixed6 K).toList = ip ++ '.' :: fp ∧ ip ≠ [] ∧ fp.length = 6 ∧
        digitsValue ip = some (K / 1000000) ∧ digitsValue fp = some (K % 1000000)) ∧
      decimalValue (formatF (F64.fin neg m e)).toList =
        some ((if neg then -1 else 1) * ((K : ℚ) / 1000000)) ∧
      |(K : ℚ) - (m : ℚ) * (2 : ℚ) ^ e * 1000000| ≤ 1 / 2 ∧
      (|(K : ℚ) - (m : ℚ) * (2 : ℚ) ^ e * 1000000| = 1 / 2 → K % 2 = 0)) ∧
    (formatF F64.nan = "NaN" ∧ formatF (F64.inf false) = "+Inf" ∧
      formatF (F64.inf true) = "-Inf") := by
  have hne : priceRange ≠ "" := by
    intro h0
    rw [h0, Sscanf_empty] at hparse
    exact absurd hparse (by simp)
  refine ⟨?_, ?_, formatF_fin_spec, rfl, rfl, rfl⟩
  · obtain ⟨pre, hpre⟩ := body_ends_with_range query category minPrice maxPrice
    refine ⟨pre, ?_⟩
    have h := requests_of_queryDSL client query category priceRange _
      (queryDSL_clauses query category priceRange minPrice maxPrice (Or.inr (Or.inr hne))
        (fun _ => hparse))
    rw [h]
    simp only [hne, ne_eq, not_false_eq_true, if_true, hpre]
    rfl
  · intro x v hx hv
    cases x with
    | nan => simp [F64.value] at hv
    | inf neg => simp [F64.value] at hv
    | fin neg m e => exact formatF_value neg m e v hv

theorem C7_range_bounds_six_decimals_witness :
    ∃ pre, (SearchHandler emptyStore "" "" "500-100").requests =
      [{ Index := ["products"],
         Body := pre ++ ("\x7b\"filter\":\x7b\"range\":\x7b\"price\":\x7b\"gte\":" ++ formatF (F64.fin false 8796093022208000 (-44)) ++
           ",\"lte\":" ++ formatF (F64.fin false 7036874417766400 (-46)) ++ "\x7d\x7d\x7d\x7d") ++ "\x7d\x7d" }] :=
  (C7_range_bounds_six_decimals emptyStore "" "" "500-100"
    (F64.fin false 8796093022208000 (-44)) (F64.fin false 7036874417766400 (-46))
    (by rfl)).1

theorem jsonRun_none (l : List Char) : jsonRun none l = none := by
  cases l <;> rfl

theorem jsonRun_append (conf : Option (JState × List JCtx)) (a b : List Char) :
    jsonRun conf (a ++ b) = jsonRun (jsonRun conf a) b := by
  induction a generalizing conf with
  | nil => cases conf <;> rfl
  | cons x a ih =>
    cases conf with
    | none => simp [jsonRun, jsonRun_none]
    | some c => simpa [jsonRun] using ih (jsonStep c x)

theorem isJSON_false_of_start (text : String) (rest : List Char)
    (h : text.toList = "\x7b\"bool\":\x7b\x7b".toList ++ rest) : isJSON text = false := by
  unfold isJSON
  rw [h, jsonRun_append]
  have h0 : jsonRun (some (JState.value, [])) "\x7b\"bool\":\x7b\x7b".toList = none := by decide
  rw [h0, jsonRun_none]

theorem intercalate_go_data (sep : String) : ∀ (l : List String) (acc : String),
    ∃ rest, (String.intercalate.go acc sep l).data = acc.data ++ rest := by
  intro l
  induction l with
  | nil => intro acc; exact ⟨[], by simp [String.intercalate.go]⟩
  | cons x l ih =>
    intro acc
    obtain ⟨rest, h⟩ := ih (acc ++ sep ++ x)
    exact ⟨sep.data ++ x.data ++ rest, by
      simp [String.intercalate.go, h, String.data_append, List.append_assoc]⟩

theorem clause_start (query category : String) (range : Option (F64 × F64))
    (h : query ≠ "" ∨ category ≠ "" ∨ range ≠ none) :
    ∃ hd tl r, clauses query category range = hd :: tl ∧ hd.data = '\x7b' :: r := by
  by_cases hq : query = ""
  · by_cases hc : category = ""
    · cases range with
      | none => simp [hq, hc] at h
      | some r =>
        obtain ⟨a, b⟩ := r
        exact ⟨rangeClause a b, [], _, by simp [clauses, hq, hc], by
          simp only [rangeClause, String.data_append]; rfl⟩
    · exact ⟨termClause category, _, _, by simp [clauses, hq, hc]; rfl, by
        simp only [termClause, String.data_append]; rfl⟩
  · exact ⟨matchClause query, _, _, by simp [clauses, hq]; rfl, by
      simp only [matchClause, String.data_append]; rfl⟩

theorem boolContainer_start (query category : String) (range : Option (F64 × F64))
    (h : query ≠ "" ∨ category ≠ "" ∨ range ≠ none) :
    ∃ rest, (boolContainer (clauses query category range)).toList = "\x7b\"bool\":\x7b\x7b".toList ++ rest := by
  obtain ⟨hd, tl, r, hcl, hhd⟩ := clause_start query category range h
  obtain ⟨rest, hrest⟩ := intercalate_go_data "," tl hd
  refine ⟨r ++ rest ++ "\x7d\x7d".data, ?_⟩
  have hi : (String.intercalate "," (hd :: tl)).data = hd.data ++ rest := by
    simpa [String.intercalate] using hrest
  simp only [boolContainer, boolWrap, hcl, String.toList, String.data_append, hi, hhd]
  simp

/-- Whenever the handler sends a body that is not empty, the body is not a
well-formed JSON document. -/
theorem body_never_json (client : SearchRequest → StoreReply)
    (query category priceRange : String) (req : SearchRequest)
    (hreq : req ∈ (SearchHandler client query category priceRange).requests)
    (hne : req.Body ≠ "") : isJSON req.Body = false := by
  by_cases hp : priceRange = ""
  · by_cases hall : query = "" ∧ category = ""
    · obtain ⟨hq, hc⟩ := hall
      subst hq hc hp
      rw [requests_of_queryDSL client "" "" "" "" (by decide)] at hreq
      simp at hreq
      rw [hreq] at hne
      exact absurd rfl hne
    · have hsome : query ≠ "" ∨ category ≠ "" ∨ priceRange ≠ "" := by
        by_cases hq : query = ""
        · exact Or.inr (Or.inl (fun hc => hall ⟨hq, hc⟩))
        · exact Or.inl hq
      have h := requests_of_queryDSL client query category priceRange _
        (queryDSL_clauses query category priceRange F64.nan F64.nan hsome
          (fun hpp => absurd hp hpp))
      rw [h] at hreq
      simp only [hp, ne_eq, not_true_eq_false, if_false, List.mem_singleton] at hreq
      obtain ⟨rest, hrest⟩ := boolContainer_start query category none (by
        rcases hsome with h1 | h1 | h1
        · exact Or.inl h1
        · exact Or.inr (Or.inl h1)
        · exact absurd hp h1)
      rw [hreq]
      exact isJSON_false_of_start _ rest hrest
  · cases hs : Sscanf priceRange with
    | error err =>
      rw [rejected_of_queryDSL client query category priceRange
        (queryDSL_of_scan_error query category priceRange err hp hs)] at hreq
      simp [httpError] at hreq
    | ok r =>
      obtain ⟨a, b⟩ := r
      have h := requests_of_queryDSL client query category priceRange _
        (queryDSL_clauses query category priceRange a b (Or.inr (Or.inr hp)) (fun _ => hs))
      rw [h] at hreq
      simp only [hp, ne_eq, not_false_eq_true, if_true, List.mem_singleton] at hreq
      obtain ⟨rest, hrest⟩ := boolContainer_start query category (some (a, b))
        (Or.inr (Or.inr (by simp)))
      rw [hreq]
      exact isJSON_false_of_start _ rest hrest

end Api
